import Mathlib

/-!
Verification of the server version update pipeline of
`packages/server/src/services/ServerUpdateService.ts`.

The development shallowly embeds the service: the file system is a finite
association list from paths (lists of components) to file contents, where
lookup returns the first matching entry, so prepending entries models
overwriting copies.  The service state (servers, in-memory session map,
durable update-history records, emitted events, calls into external
collaborators) is an explicit record threaded through each operation.
-/

namespace HytaleUpdate

/-- A file-system path, as a list of components. -/
abbrev Path := List String

/-- A file system: an association list from paths to file contents.
Lookup returns the first entry with a matching key, so earlier entries
shadow later ones; copying prepends entries, modelling overwrite. -/
abbrev FS := List (Path × String)

/-- If `root` is a proper or improper ancestor of `p`, return the remaining
components of `p` below `root`, else `none`. -/
def tailAfter : Path → Path → Option Path
  | [], p => some p
  | _, [] => none
  | a :: as, b :: bs => if a = b then tailAfter as bs else none

/-- First-match lookup of a path in the file system. -/
def lookupFS : FS → Path → Option String
  | [], _ => none
  | e :: rest, p => if e.1 = p then some e.2 else lookupFS rest p

/-- Models `fs.pathExists`: the path is a file, or a directory containing
some file. -/
def pathExistsFS (fs : FS) (p : Path) : Bool :=
  fs.any fun e => (tailAfter p e.1).isSome

/-- Models `fs.remove(root)`: delete the file or directory tree at `root`. -/
def removeTree (fs : FS) (root : Path) : FS :=
  fs.filter fun e => (tailAfter root e.1).isNone

/-- Models the wipe loop of the download step: every entry of the directory
`dir` is removed, but a file at `dir` itself would survive (the loop removes
`readdir` children only). -/
def wipeChildren (fs : FS) (dir : Path) : FS :=
  fs.filter fun e =>
    match tailAfter dir e.1 with
    | some (_ :: _) => false
    | _ => true

/-- Models `fs.copy(src, dst, { overwrite: true })`: every file under `src`
is rebased below `dst` and prepended, shadowing the previous contents of
`dst` while keeping files of `dst` that `src` does not provide. -/
def copyTree (fs : FS) (src dst : Path) : FS :=
  (fs.filterMap fun e => (tailAfter src e.1).map fun q => (dst ++ q, e.2)) ++ fs

/-- Models `findFilesRecursive(dir, pattern)`: the relative paths of all
files below `dir` whose file name matches `pat`. -/
def findFilesRecursive (fs : FS) (dir : Path) (pat : String → Bool) : List Path :=
  fs.filterMap fun e =>
    match tailAfter dir e.1 with
    | some [] => none
    | some q => if pat (q.getLastD "") then some q else none
    | none => none

/-- The test of the config-file pattern `/\.json$/i` on a file name: the
name ends, case-insensitively, in `.json`. -/
def isJsonFile (name : String) : Bool :=
  match name.data.reverse with
  | n :: o :: s :: j :: d :: _ =>
    (n == 'n' || n == 'N') && (o == 'o' || o == 'O') && (s == 's' || s == 'S') &&
    (j == 'j' || j == 'J') && d == '.'
  | _ => false

/-- A sequence of guarded copies, each `fs.pathExists(src)`-guarded as in
`preserveFiles` / `restorePreservedFiles` (the per-config copy in the source
is unguarded on restore, but the guard is vacuously true there since the
scan just found the file). -/
def copySteps (fs : FS) (steps : List (Path × Path)) : FS :=
  steps.foldl (fun fs s => if pathExistsFS fs s.1 then copyTree fs s.1 s.2 else fs) fs

/-! ### Basic facts about the file-system model -/

theorem tailAfter_eq_some_iff {u p r : Path} :
    tailAfter u p = some r ↔ p = u ++ r := by
  induction u generalizing p with
  | nil => simp [tailAfter]
  | cons a as ih =>
    cases p with
    | nil => simp [tailAfter]
    | cons b bs =>
      by_cases hab : a = b
      · subst hab
        simp [tailAfter, ih]
      · simp only [tailAfter, if_neg hab, List.cons_append]
        constructor
        · intro h; cases h
        · intro h
          injection h with h1 _
          exact absurd h1.symm hab

theorem tailAfter_self_append (u r : Path) : tailAfter u (u ++ r) = some r :=
  tailAfter_eq_some_iff.mpr rfl

theorem tailAfter_append_both (u v w : Path) :
    tailAfter (u ++ v) (u ++ w) = tailAfter v w := by
  induction u with
  | nil => simp [tailAfter]
  | cons a as ih => simp [tailAfter, ih]

theorem tailAfter_of_extended {u v : Path} {p : Path} (h : tailAfter u p = none) :
    tailAfter (u ++ v) p = none := by
  cases hr : tailAfter (u ++ v) p with
  | none => rfl
  | some r =>
    have hp : p = u ++ (v ++ r) := by
      have := tailAfter_eq_some_iff.mp hr
      simpa [List.append_assoc] using this
    rw [hp, tailAfter_self_append] at h
    cases h

theorem lookupFS_append (l₁ l₂ : FS) (p : Path) :
    lookupFS (l₁ ++ l₂) p = (lookupFS l₁ p).or (lookupFS l₂ p) := by
  induction l₁ with
  | nil => simp [lookupFS]
  | cons e rest ih =>
    by_cases h : e.1 = p
    · simp [lookupFS, h]
    · simp [lookupFS, h, ih]

theorem lookupFS_append_of_not_mem {l₁ : FS} {p : Path}
    (h : ∀ e ∈ l₁, e.1 ≠ p) (l₂ : FS) :
    lookupFS (l₁ ++ l₂) p = lookupFS l₂ p := by
  induction l₁ with
  | nil => simp
  | cons e rest ih =>
    have he : e.1 ≠ p := h e (by simp)
    simp only [List.cons_append, lookupFS, if_neg he]
    exact ih fun e' he' => h e' (by simp [he'])

theorem lookupFS_filter_of_kept {fs : FS} {p : Path} {keep : Path × String → Bool}
    (h : ∀ e ∈ fs, e.1 = p → keep e = true) :
    lookupFS (fs.filter keep) p = lookupFS fs p := by
  induction fs with
  | nil => simp
  | cons e rest ih =>
    by_cases hp : e.1 = p
    · have := h e (by simp) hp
      simp [List.filter, this, lookupFS, hp]
    · have ih' := ih fun e' he' => h e' (by simp [he'])
      cases hk : keep e with
      | true => simp [List.filter, hk, lookupFS, hp, ih']
      | false => simp [List.filter, hk, lookupFS, hp, ih']

theorem lookupFS_isSome_exists {fs : FS} {p : Path} {c : String}
    (h : lookupFS fs p = some c) : ∃ e ∈ fs, e.1 = p ∧ e.2 = c := by
  induction fs with
  | nil => simp [lookupFS] at h
  | cons e rest ih =>
    by_cases hp : e.1 = p
    · simp [lookupFS, hp] at h
      exact ⟨e, by simp, hp, h⟩
    · simp only [lookupFS, if_neg hp] at h
      obtain ⟨e', he', h1, h2⟩ := ih h
      exact ⟨e', by simp [he'], h1, h2⟩

theorem pathExistsFS_of_lookup {fs : FS} {u q : Path} {c : String}
    (h : lookupFS fs (u ++ q) = some c) : pathExistsFS fs u = true := by
  obtain ⟨e, he, h1, _⟩ := lookupFS_isSome_exists h
  simp only [pathExistsFS, List.any_eq_true]
  exact ⟨e, he, by rw [h1, tailAfter_self_append]; rfl⟩

theorem lookupFS_rebase (fs : FS) (src dst q : Path) :
    lookupFS (fs.filterMap fun e => (tailAfter src e.1).map fun r => (dst ++ r, e.2))
        (dst ++ q)
      = lookupFS fs (src ++ q) := by
  induction fs with
  | nil => simp [lookupFS]
  | cons e rest ih =>
    cases hs : tailAfter src e.1 with
    | none =>
      have hne : e.1 ≠ src ++ q := by
        intro h; rw [h, tailAfter_self_append] at hs; cases hs
      simp only [List.filterMap_cons, hs, Option.map_none', lookupFS, if_neg hne]
      exact ih
    | some r =>
      have he : e.1 = src ++ r := tailAfter_eq_some_iff.mp hs
      by_cases hrq : r = q
      · subst hrq
        rw [List.filterMap_cons, hs]
        simp [lookupFS, he]
      · have hne2 : dst ++ r ≠ dst ++ q := by
          intro h; exact hrq (by simpa using h)
        have hne : e.1 ≠ src ++ q := by
          rw [he]; intro h; exact hrq (by simpa using h)
        simp only [List.filterMap_cons, hs, Option.map_some', lookupFS, if_neg hne2,
          if_neg hne]
        exact ih

theorem copyTree_lookup_under (fs : FS) (src dst q : Path) :
    lookupFS (copyTree fs src dst) (dst ++ q)
      = (lookupFS fs (src ++ q)).or (lookupFS fs (dst ++ q)) := by
  unfold copyTree
  rw [lookupFS_append, lookupFS_rebase]

theorem copyTree_lookup_not_under {dst p : Path} (h : tailAfter dst p = none)
    (fs : FS) (src : Path) :
    lookupFS (copyTree fs src dst) p = lookupFS fs p := by
  unfold copyTree
  apply lookupFS_append_of_not_mem
  intro e he heq
  obtain ⟨a, _, hfa⟩ := List.mem_filterMap.mp he
  cases hs : tailAfter src a.1 with
  | none => rw [hs] at hfa; cases hfa
  | some r =>
    rw [hs, Option.map_some'] at hfa
    have hcp : e = (dst ++ r, a.2) := (Option.some.inj hfa).symm
    have : e.1 = dst ++ r := by rw [hcp]
    rw [heq] at this
    rw [this, tailAfter_self_append] at h
    cases h

theorem copySteps_nil (fs : FS) : copySteps fs [] = fs := rfl

theorem copySteps_cons (fs : FS) (s : Path × Path) (rest : List (Path × Path)) :
    copySteps fs (s :: rest) =
      copySteps (if pathExistsFS fs s.1 then copyTree fs s.1 s.2 else fs) rest := rfl

theorem copySteps_append (fs : FS) (l₁ l₂ : List (Path × Path)) :
    copySteps fs (l₁ ++ l₂) = copySteps (copySteps fs l₁) l₂ :=
  List.foldl_append _ _ _ _

theorem copySteps_lookup_not_under {p : Path} :
    ∀ (steps : List (Path × Path)) (fs : FS),
    (∀ s ∈ steps, tailAfter s.2 p = none) →
    lookupFS (copySteps fs steps) p = lookupFS fs p := by
  intro steps
  induction steps with
  | nil => intro fs _; rfl
  | cons s rest ih =>
    intro fs h
    have hs : tailAfter s.2 p = none := h s (by simp)
    rw [copySteps_cons, ih _ fun s' hs' => h s' (by simp [hs'])]
    by_cases hg : pathExistsFS fs s.1 = true
    · rw [if_pos hg, copyTree_lookup_not_under hs]
    · rw [if_neg hg]

/-- Main propagation fact for the preserve/restore copy loops: copying the
paths `A ++ y` to `B ++ y` for `y` ranging over `xs` transfers the content
found at `A ++ (x ++ q)` to `B ++ (x ++ q)` whenever `x ∈ xs`, keeps a
content already present there, and never disturbs the source side, provided
the destination root `B` does not sit above the source key. -/
theorem copySteps_mapped_sets {A B x q : Path} {c : String} :
    ∀ (xs : List Path) (fs : FS),
    tailAfter B (A ++ (x ++ q)) = none →
    lookupFS fs (A ++ (x ++ q)) = some c →
    (x ∈ xs ∨ lookupFS fs (B ++ (x ++ q)) = some c) →
    lookupFS (copySteps fs (xs.map fun y => (A ++ y, B ++ y))) (A ++ (x ++ q)) = some c ∧
    lookupFS (copySteps fs (xs.map fun y => (A ++ y, B ++ y))) (B ++ (x ++ q)) = some c := by
  intro xs
  induction xs with
  | nil =>
    intro fs _ hsrc hd
    refine ⟨hsrc, ?_⟩
    rcases hd with h | h
    · cases h
    · exact h
  | cons y ys ih =>
    intro fs hdisj hsrc hd
    rw [List.map_cons, copySteps_cons]
    set fs' := if pathExistsFS fs (A ++ y) then copyTree fs (A ++ y) (B ++ y) else fs with hfs'
    have hsrc' : lookupFS fs' (A ++ (x ++ q)) = some c := by
      rw [hfs']
      by_cases hg : pathExistsFS fs (A ++ y) = true
      · rw [if_pos hg, copyTree_lookup_not_under (tailAfter_of_extended hdisj)]
        exact hsrc
      · rw [if_neg hg]; exact hsrc
    rcases hd with hmem | hB
    · rcases List.mem_cons.mp hmem with hxy | hxys
      · subst hxy
        have hg : pathExistsFS fs (A ++ x) = true := by
          apply @pathExistsFS_of_lookup fs (A ++ x) q c
          rw [List.append_assoc]; exact hsrc
        have hB' : lookupFS fs' (B ++ (x ++ q)) = some c := by
          rw [hfs', if_pos hg]
          have : B ++ (x ++ q) = (B ++ x) ++ q := (List.append_assoc _ _ _).symm
          rw [this, copyTree_lookup_under]
          have : (A ++ x) ++ q = A ++ (x ++ q) := List.append_assoc _ _ _
          rw [this, hsrc]
          rfl
        exact ih fs' (by exact hdisj) hsrc' (Or.inr hB')
      · exact ih fs' (by exact hdisj) hsrc' (Or.inl hxys)
    · have hB' : lookupFS fs' (B ++ (x ++ q)) = some c := by
        rw [hfs']
        by_cases hg : pathExistsFS fs (A ++ y) = true
        · rw [if_pos hg]
          have hta : tailAfter (B ++ y) (B ++ (x ++ q)) = tailAfter y (x ++ q) :=
            tailAfter_append_both _ _ _
          cases hyr : tailAfter y (x ++ q) with
          | none =>
            rw [copyTree_lookup_not_under (by rw [hta, hyr]) fs]
            exact hB
          | some r =>
            have hxq : x ++ q = y ++ r := tailAfter_eq_some_iff.mp hyr
            have h1 : B ++ (x ++ q) = (B ++ y) ++ r := by
              rw [hxq, List.append_assoc]
            rw [h1, copyTree_lookup_under]
            have h2 : (A ++ y) ++ r = A ++ (x ++ q) := by
              rw [hxq, List.append_assoc]
            rw [h2, hsrc]
            rfl
        · rw [if_neg hg]; exact hB
      exact ih fs' (by exact hdisj) hsrc' (Or.inr hB')

theorem mem_findFilesRecursive {fs : FS} {dir q : Path} {c : String}
    {pat : String → Bool}
    (h : lookupFS fs (dir ++ q) = some c) (hq : q ≠ [])
    (hpat : pat (q.getLastD "") = true) : q ∈ findFilesRecursive fs dir pat := by
  obtain ⟨e, he, h1, _⟩ := lookupFS_isSome_exists h
  unfold findFilesRecursive
  apply List.mem_filterMap.mpr
  refine ⟨e, he, ?_⟩
  rw [h1, tailAfter_self_append]
  cases q with
  | nil => cases hq rfl
  | cons a as =>
    have hpat' : pat ((a :: as).getLast?.getD "") = true := by
      rw [← List.getLastD_eq_getLast?]; exact hpat
    simp [hpat']

theorem removeTree_no_entry (fs : FS) (root : Path) :
    ∀ e ∈ removeTree fs root, tailAfter root e.1 = none := by
  intro e he
  have := List.of_mem_filter he
  simpa using this

theorem removeTree_lookup_not_under {root p : Path} (h : tailAfter root p = none)
    (fs : FS) : lookupFS (removeTree fs root) p = lookupFS fs p := by
  apply lookupFS_filter_of_kept
  intro e _ hp
  simp [hp, h]

theorem wipeChildren_lookup_not_under {dir p : Path} (h : tailAfter dir p = none)
    (fs : FS) : lookupFS (wipeChildren fs dir) p = lookupFS fs p := by
  apply lookupFS_filter_of_kept
  intro e _ hp
  rw [hp, h]

/-! ### Data model -/

/-- `UpdateStatus` from the source. -/
inductive UpdateStatus
  | pending
  | stopping
  | backing_up
  | preserving
  | downloading
  | installing
  | restoring
  | starting
  | completed
  | failed
  | rolled_back
deriving DecidableEq

/-- `UpdateSession` from the source (dates as naturals). -/
structure UpdateSession where
  sessionId : String
  serverId : String
  fromVersion : String
  toVersion : String
  status : UpdateStatus
  progress : Nat
  message : Option String
  error : Option String
  backupId : Option String
  startedAt : Nat
  wasRunning : Bool
  downloadSessionId : Option String
  tempPreservePath : Option Path
deriving DecidableEq

/-- The fields of the persisted `Server` record that the update pipeline
reads or writes. -/
structure Server where
  id : String
  name : String
  version : String
  status : String
  serverPath : Path
  updateInProgress : Bool
  availableVersion : Option String
  preUpdateBackupId : Option String
deriving DecidableEq

/-- The durable `ServerUpdateHistory` record. -/
structure HistoryRecord where
  id : String
  serverId : String
  fromVersion : String
  toVersion : String
  status : String
  error : Option String
  backupId : Option String
  startedAt : Nat
  completedAt : Option Nat
deriving DecidableEq

/-- Events emitted through the service's `EventEmitter`. -/
inductive Event
  | started (sessionId serverId : String)
  | progress (sessionId : String) (status : UpdateStatus) (progress : Nat)
  | completed (sessionId : String)
  | failed (sessionId : String) (error : String)
  | cancelled (sessionId serverId : String)
  | rollbackCompleted (serverId : String)
deriving DecidableEq

/-- Calls into the external collaborators (Process Controller, Backup
Service, Download Provider, Notification Sink). -/
inductive ExtCall
  | stopServer (serverId : String)
  | startServer (serverId : String)
  | createBackup (serverId : String)
  | startDownload (serverId : String)
  | cancelDownload (downloadSessionId : String)
  | getGameVersion
  | restoreBackup (backupId : String)
  | notify (kind : String)
deriving DecidableEq

/-- The whole observable state of the service: persisted server records,
the in-memory session map, durable history records, the disk, plus traces
of emitted events and collaborator calls. -/
structure SystemState where
  servers : List Server
  sessions : List (String × UpdateSession)
  history : List HistoryRecord
  fs : FS
  events : List Event
  calls : List ExtCall
deriving DecidableEq

def lookupAssoc {α : Type} : List (String × α) → String → Option α
  | [], _ => none
  | e :: rest, k => if e.1 = k then some e.2 else lookupAssoc rest k

/-- `Map.set` semantics for the session map. -/
def setAssoc {α : Type} (m : List (String × α)) (k : String) (v : α) :
    List (String × α) :=
  (k, v) :: m.filter fun e => e.1 != k

def findServer (st : SystemState) (serverId : String) : Option Server :=
  st.servers.find? fun s => s.id == serverId

def updateServer (st : SystemState) (serverId : String) (f : Server → Server) :
    SystemState :=
  { st with servers := st.servers.map fun s => if s.id == serverId then f s else s }

def updateHistory (st : SystemState) (historyId : String)
    (f : HistoryRecord → HistoryRecord) : SystemState :=
  { st with history := st.history.map fun h => if h.id == historyId then f h else h }

def emit (st : SystemState) (ev : Event) : SystemState :=
  { st with events := st.events ++ [ev] }

def addCall (st : SystemState) (c : ExtCall) : SystemState :=
  { st with calls := st.calls ++ [c] }

/-! ### File preservation (`identifyPreservedPaths`, `preserveFiles`,
`restorePreservedFiles`) -/

/-- `PreservedPaths` from the source. -/
structure PreservedPaths where
  configs : List Path
  modsPath : Path
  universePath : Path
  logsPath : Path
deriving DecidableEq

/-- `identifyPreservedPaths` from the source.  The config scan sits inside
a `try`/`catch` that logs a scan failure and degrades `configs` to the
empty list; `scanOk = false` models the scan throwing. -/
def identifyPreservedPaths (scanOk : Bool) (fs : FS) (serverPath : Path) :
    PreservedPaths :=
  let serverDir := serverPath ++ ["Server"]
  { configs := if scanOk then findFilesRecursive fs serverDir isJsonFile else []
    modsPath := serverDir ++ ["mods"]
    universePath := serverDir ++ ["universe"]
    logsPath := serverDir ++ ["logs"] }

/-- The name of the temp preserve directory, `'.update-preserve-' + Date.now()`. -/
def tempPreserveName (now : Nat) : String := ".update-preserve-" ++ toString now

def preserveFiles (fs : FS) (serverPath : Path) (now : Nat)
    (preserved : PreservedPaths) : Path × FS :=
  let tempPath := serverPath ++ [tempPreserveName now]
  let serverDir := serverPath ++ ["Server"]
  let cfgSteps := preserved.configs.map fun c =>
    (serverDir ++ c, (tempPath ++ ["configs"]) ++ c)
  let dirSteps := [(preserved.modsPath, tempPath ++ ["mods"]),
                   (preserved.universePath, tempPath ++ ["universe"]),
                   (preserved.logsPath, tempPath ++ ["logs"])]
  (tempPath, copySteps fs (cfgSteps ++ dirSteps))

def restorePreservedFiles (fs : FS) (tempPath serverPath : Path) : FS :=
  let serverDir := serverPath ++ ["Server"]
  let configsDir := tempPath ++ ["configs"]
  let cfgSteps :=
    if pathExistsFS fs configsDir then
      (findFilesRecursive fs configsDir isJsonFile).map fun f =>
        (configsDir ++ f, serverDir ++ f)
    else []
  let dirSteps := [(tempPath ++ ["mods"], serverDir ++ ["mods"]),
                   (tempPath ++ ["universe"], serverDir ++ ["universe"]),
                   (tempPath ++ ["logs"], serverDir ++ ["logs"])]
  removeTree (copySteps fs (cfgSteps ++ dirSteps)) tempPath

/-! ### Download progress interpolation and the download wait -/

/-- `Math.round(45 + providerPercent * 0.25)`.  For integer percentages the
JavaScript float arithmetic is exact (quarters are dyadic rationals and the
sum is far below 2^53), so this natural-number form is faithful:
`round(45 + p/4) = 45 + ⌊(p+2)/4⌋`. -/
def dlProgress (p : Nat) : Nat := 45 + (p + 2) / 4

inductive DlStatus
  | downloading
  | complete
  | failed
deriving DecidableEq

/-- The Download Provider's session snapshot, as read by `waitForDownload`. -/
structure DlSnapshot where
  progress : Nat
  status : DlStatus
  error : Option String
deriving DecidableEq

/-- One poll tick of `waitForDownload`: `some r` when the tick settles the
wait with result `r`, `none` when polling continues.  The checks are in
source order: cancellation of the update session, disappearance of the
download session, completion, failure. -/
def pollVerdict (cancelled : Nat → Bool) (provider : Nat → Option DlSnapshot)
    (t : Nat) : Option (Except String Unit) :=
  if cancelled t then some (.error "Update cancelled")
  else match provider t with
    | none => some (.error "Download session not found")
    | some snap =>
      match snap.status with
      | .complete => some (.ok ())
      | .failed => some (.error (snap.error.getD "Download failed"))
      | .downloading => none

def waitForDownloadGo (cancelled : Nat → Bool) (provider : Nat → Option DlSnapshot) :
    Nat → Nat → Except String Unit
  | _, 0 => .error "Download timed out"
  | t, fuel + 1 =>
    match pollVerdict cancelled provider t with
    | some r => r
    | none => waitForDownloadGo cancelled provider (t + 1) fuel

/-- The 30-minute timeout ceiling, in 1-second poll ticks. -/
def downloadTimeoutTicks : Nat := 30 * 60

/-- `waitForDownload`, abstracted over the per-tick cancellation flag (the
update session having been marked `failed`) and the Download Provider's
session snapshots. -/
def waitForDownload (cancelled : Nat → Bool) (provider : Nat → Option DlSnapshot) :
    Except String Unit :=
  waitForDownloadGo cancelled provider 0 downloadTimeoutTicks

/-! ### `removeWithRetry` -/

def LOCKED_FILE_ERRORS : List String :=
  ["ENOTEMPTY", "EBUSY", "EACCES", "EPERM", "ETXTBSY"]

/-- Result of a `removeWithRetry` run: the outcome, how many removal
attempts were made, and the sequence of backoff delays taken. -/
instance instDecEqExcept {e a : Type} [DecidableEq e] [DecidableEq a] :
    DecidableEq (Except e a) := fun x y =>
  match x, y with
  | .ok u, .ok v =>
    match decEq u v with
    | .isTrue h => .isTrue (h ▸ rfl)
    | .isFalse h => .isFalse fun hc => h (Except.ok.inj hc)
  | .error u, .error v =>
    match decEq u v with
    | .isTrue h => .isTrue (h ▸ rfl)
    | .isFalse h => .isFalse fun hc => h (Except.error.inj hc)
  | .ok _, .error _ => .isFalse fun hc => Except.noConfusion hc
  | .error _, .ok _ => .isFalse fun hc => Except.noConfusion hc

structure RetryResult where
  res : Except String Unit
  attempts : Nat
  delays : List Nat
deriving DecidableEq

/-- The retry loop of `removeWithRetry`; `outcomes k` is the result of the
`k`-th removal attempt (`none` = success, `some code` = error with that
code). -/
def removeWithRetryGo (outcomes : Nat → Option String)
    (maxAttempts delayMs attempt : Nat) : RetryResult :=
  if attempt ≤ maxAttempts then
    match outcomes attempt with
    | none => ⟨.ok (), attempt, []⟩
    | some code =>
      if h : code ∈ LOCKED_FILE_ERRORS ∧ attempt < maxAttempts then
        let r := removeWithRetryGo outcomes maxAttempts delayMs (attempt + 1)
        ⟨r.res, r.attempts, delayMs :: r.delays⟩
      else ⟨.error code, attempt, []⟩
  else ⟨.ok (), attempt - 1, []⟩
termination_by maxAttempts - attempt
decreasing_by omega

def removeWithRetry (outcomes : Nat → Option String) (maxAttempts delayMs : Nat) :
    RetryResult :=
  removeWithRetryGo outcomes maxAttempts delayMs 1

/-! ### `startUpdate`, `cancelUpdate`, `rollback` -/

/-- `startUpdate(serverId, targetVersion?)`.  `latest` is the outcome of
`hytaleDownloaderService.getGameVersion()` (`.error m` = the call throws,
`.ok none` = it returns no version), consulted only when no explicit target
is given; `now` stands for `Date.now()`.  Errors carry the state as of the
throw, so the theorems can speak about what was (not) mutated. -/
def startUpdate (latest : Except String (Option String)) (now : Nat)
    (serverId : String) (targetVersion : Option String) (st : SystemState) :
    Except (String × SystemState) (UpdateSession × SystemState) :=
  match findServer st serverId with
  | none => .error ("Server " ++ serverId ++ " not found", st)
  | some server =>
    if server.updateInProgress then
      .error ("Server " ++ server.name ++ " is already being updated", st)
    else
      let resolved : Except (String × SystemState) (String × SystemState) :=
        match targetVersion with
        | some v => .ok (v, st)
        | none =>
          let st := addCall st .getGameVersion
          match latest with
          | .error m => .error ("Could not determine latest version: " ++ m, st)
          | .ok none => .error ("Could not determine latest version: Could not determine latest version. Please ensure the Hytale downloader is authenticated.", st)
          | .ok (some v) => .ok (v, st)
      match resolved with
      | .error e => .error e
      | .ok (toVersion, st) =>
        if toVersion = server.version then
          .error ("Server is already at version " ++ toVersion, st)
        else
          let sessionId := "update-" ++ toString now
          let session : UpdateSession :=
            { sessionId := sessionId, serverId := server.id,
              fromVersion := server.version, toVersion := toVersion,
              status := UpdateStatus.pending, progress := 0, message := none,
              error := none, backupId := none, startedAt := now,
              wasRunning := server.status == "running",
              downloadSessionId := none, tempPreservePath := none }
          let st := { st with sessions := setAssoc st.sessions sessionId session }
          let st := updateServer st serverId fun s => { s with updateInProgress := true }
          let historyId := "history-" ++ toString now
          let st := { st with history := st.history ++ [{
            id := historyId, serverId := serverId,
            fromVersion := server.version, toVersion := toVersion,
            status := "pending", error := none, backupId := none,
            startedAt := now, completedAt := none }] }
          let st := emit st (.started sessionId serverId)
          let st := addCall st (.notify "server_update_started")
          .ok (session, st)

/-- `cancelUpdate(sessionId)`.  The removal of the temp preserve directory
sits inside a `try`/`catch` that logs a failure and continues; `removeOk =
false` models the `fs.remove` throwing. -/
def cancelUpdate (removeOk : Bool) (sessionId : String) (st : SystemState) :
    Except (String × SystemState) SystemState :=
  match lookupAssoc st.sessions sessionId with
  | none => .error ("Update session not found", st)
  | some session =>
    if session.status = .completed ∨ session.status = .failed then
      .error ("Cannot cancel a completed or failed update", st)
    else
      let st := match session.downloadSessionId with
        | some d => addCall st (.cancelDownload d)
        | none => st
      let st := match session.tempPreservePath with
        | some t =>
          if pathExistsFS st.fs t then
            (if removeOk then { st with fs := removeTree st.fs t } else st)
          else st
        | none => st
      let session := { session with
        status := UpdateStatus.failed
        error := some "Update cancelled by user" }
      let st := { st with sessions := setAssoc st.sessions sessionId session }
      let st := updateServer st session.serverId fun s =>
        { s with updateInProgress := false }
      .ok (emit st (.cancelled sessionId session.serverId))

/-- One fold step of `findLatestHistory`: keep the record with the greater
`startedAt` (the earlier one on ties). -/
def latestStep (acc : Option HistoryRecord) (h : HistoryRecord) :
    Option HistoryRecord :=
  match acc with
  | none => some h
  | some a => if h.startedAt > a.startedAt then some h else acc

/-- `prisma.serverUpdateHistory.findFirst({ where: { serverId, backupId },
orderBy: { startedAt: 'desc' } })`: the matching record with the greatest
`startedAt`. -/
def findLatestHistory (st : SystemState) (serverId backupId : String) :
    Option HistoryRecord :=
  (st.history.filter fun h =>
      h.serverId == serverId && h.backupId == some backupId).foldl latestStep none

/-- `rollback(serverId)`. -/
def rollback (serverId : String) (st : SystemState) :
    Except (String × SystemState) SystemState :=
  match findServer st serverId with
  | none => .error ("Server " ++ serverId ++ " not found", st)
  | some server =>
    match server.preUpdateBackupId with
    | none => .error ("No pre-update backup available for rollback", st)
    | some backupId =>
      let wasRunning := server.status == "running"
      let st := if wasRunning then addCall st (.stopServer serverId) else st
      let st := addCall st (.restoreBackup backupId)
      let st := match findLatestHistory st serverId backupId with
        | some h =>
          let st := updateServer st serverId fun s =>
            { s with version := h.fromVersion, preUpdateBackupId := none }
          updateHistory st h.id fun r => { r with status := "rolled_back" }
        | none => st
      let st := if wasRunning then addCall st (.startServer serverId) else st
      .ok (emit st (.rollbackCompleted serverId))

/-! ### The update pipeline (`executeUpdatePipeline`) -/

/-- The outcomes of the external collaborator calls a pipeline run makes,
plus `Date.now()` for the temp directory name.  A `.error m` models the
corresponding `await` throwing with message `m`.  `downloadFiles` are the
files a successful download lays down (applied on wait success; a failed
download's partial files are irrelevant to the claims). -/
structure PipelineEnv where
  stopResult : Except String Unit
  backupResult : Except String String
  wipeResult : Except String Unit
  startDownloadResult : Except String String
  downloadTicks : List Nat
  waitResult : Except String Unit
  downloadFiles : FS
  startResult : Except String Unit
  configScanOk : Bool
  cleanupOk : Bool
  now : Nat
deriving DecidableEq

def updateSessionStatus (st : SystemState) (session : UpdateSession)
    (status : UpdateStatus) (progress : Nat) (message : String) :
    SystemState × UpdateSession :=
  let session := { session with
    status := status
    progress := progress
    message := some message }
  let st := { st with sessions := setAssoc st.sessions session.sessionId session }
  (emit st (Event.progress session.sessionId status progress), session)

def updateHistoryStatus (st : SystemState) (historyId status : String)
    (error : Option String) : SystemState :=
  updateHistory st historyId fun h => { h with status := status, error := error }

/-- The per-tick progress updates of `waitForDownload`: each poll reads the
provider's percentage, stores the interpolated progress on the session and
emits an `update:progress` event. -/
def emitDownloadTicks : SystemState → UpdateSession → List Nat →
    SystemState × UpdateSession
  | st, session, [] => (st, session)
  | st, session, p :: rest =>
    let session := { session with
      progress := dlProgress p
      message := some ("Downloading: " ++ toString p ++ "%") }
    let st := { st with sessions := setAssoc st.sessions session.sessionId session }
    let st := emit st (Event.progress session.sessionId session.status (dlProgress p))
    emitDownloadTicks st session rest

/-- A failure escaping a pipeline stage: the thrown message, the state at
the throw, the `tempPreservePath` local variable at the throw, and the
in-scope session object. -/
abbrev StageFailure := String × SystemState × Option Path × UpdateSession

/-- Step 1 of the `try` block: stop the server when it was running
(status `stopping`, checkpoint 5, history `stopping`, Process Controller
stop call); skipped entirely otherwise. -/
def stageStop (env : PipelineEnv) (historyId : String) (st : SystemState)
    (session : UpdateSession) :
    Except StageFailure (SystemState × UpdateSession) :=
  if session.wasRunning then
    let (st, session) :=
      updateSessionStatus st session UpdateStatus.stopping 5 "Stopping server..."
    let st := updateHistoryStatus st historyId "stopping" none
    let st := addCall st (ExtCall.stopServer session.serverId)
    match env.stopResult with
    | .ok _ => .ok (st, session)
    | .error m => .error (m, st, none, session)
  else .ok (st, session)

/-- Step 2: create the pre-update backup (status `backing_up`, checkpoint
15) and record the backup id on server and history record. -/
def stageBackup (env : PipelineEnv) (historyId : String) (st : SystemState)
    (session : UpdateSession) :
    Except StageFailure (SystemState × UpdateSession) :=
  let (st, session) :=
    updateSessionStatus st session UpdateStatus.backing_up 15 "Creating backup..."
  let st := updateHistoryStatus st historyId "backing_up" none
  let st := addCall st (ExtCall.createBackup session.serverId)
  match env.backupResult with
  | .error m => .error (m, st, none, session)
  | .ok backupId =>
    let session := { session with backupId := some backupId }
    let st := updateServer st session.serverId fun s =>
      { s with preUpdateBackupId := some backupId }
    let st := updateHistory st historyId fun h => { h with backupId := some backupId }
    .ok (st, session)

/-- Step 3: preserve user files into the temp directory (status
`preserving`, checkpoint 30), then move to `downloading`, checkpoint 45.
This stage cannot throw; it returns the `tempPreservePath` local. -/
def stagePreserve (env : PipelineEnv) (server : Server) (historyId : String)
    (st : SystemState) (session : UpdateSession) :
    SystemState × UpdateSession × Path :=
  let (st, session) :=
    updateSessionStatus st session UpdateStatus.preserving 30 "Preserving user files..."
  let st := updateHistoryStatus st historyId "preserving" none
  let preserved := identifyPreservedPaths env.configScanOk st.fs server.serverPath
  let pres := preserveFiles st.fs server.serverPath env.now preserved
  let tempPath := pres.1
  let st := { st with fs := pres.2 }
  let session := { session with tempPreservePath := some tempPath }
  let st := { st with sessions := setAssoc st.sessions session.sessionId session }
  let (st, session) :=
    updateSessionStatus st session UpdateStatus.downloading 45 "Downloading new version..."
  let st := updateHistoryStatus st historyId "downloading" none
  (st, session, tempPath)

/-- Step 4a: wipe the old `Server` directory when it exists. -/
def stageWipe (env : PipelineEnv) (server : Server) (tempPath : Path)
    (session : UpdateSession) (st : SystemState) :
    Except StageFailure SystemState :=
  let serverDir := server.serverPath ++ ["Server"]
  if pathExistsFS st.fs serverDir then
    match env.wipeResult with
    | .ok _ => .ok { st with fs := wipeChildren st.fs serverDir }
    | .error m => .error (m, st, some tempPath, session)
  else .ok st

/-- Steps 4b-5: start the download session, poll its progress
(interpolated events), and wait for it to finish. -/
def stageDownload (env : PipelineEnv) (tempPath : Path) (st : SystemState)
    (session : UpdateSession) :
    Except StageFailure (SystemState × UpdateSession) :=
  let st := addCall st (ExtCall.startDownload session.serverId)
  match env.startDownloadResult with
  | .error m => .error (m, st, some tempPath, session)
  | .ok downloadSessionId =>
    let session := { session with downloadSessionId := some downloadSessionId }
    let st := { st with sessions := setAssoc st.sessions session.sessionId session }
    let ticked := emitDownloadTicks st session env.downloadTicks
    let st := ticked.1
    let session := ticked.2
    match env.waitResult with
    | .error m => .error (m, st, some tempPath, session)
    | .ok _ => .ok (st, session)

/-- Steps 6-7: the downloaded files land (status `installing`, checkpoint
70), the `HytaleServer.jar` sanity check runs, and on success the
preserved files are restored (status `restoring`, checkpoint 80) and the
server record is updated to the new version. -/
def stageInstall (env : PipelineEnv) (server : Server) (historyId : String)
    (tempPath : Path) (st : SystemState) (session : UpdateSession) :
    Except StageFailure (SystemState × UpdateSession) :=
  let st := { st with fs := env.downloadFiles ++ st.fs }
  let (st, session) :=
    updateSessionStatus st session UpdateStatus.installing 70 "Installing new version..."
  let st := updateHistoryStatus st historyId "installing" none
  let serverDir := server.serverPath ++ ["Server"]
  if pathExistsFS st.fs (serverDir ++ ["HytaleServer.jar"]) then
    let (st, session) :=
      updateSessionStatus st session UpdateStatus.restoring 80 "Restoring user files..."
    let st := updateHistoryStatus st historyId "restoring" none
    let st := { st with
      fs := restorePreservedFiles st.fs tempPath server.serverPath }
    let st := updateServer st session.serverId fun s => { s with
      version := session.toVersion
      updateInProgress := false
      availableVersion := none }
    .ok (st, session)
  else
    .error ("Server files not properly installed - HytaleServer.jar not found",
      st, some tempPath, session)

/-- Step 8: restart the server when it was running (status `starting`,
checkpoint 90); skipped otherwise. -/
def stageStart (env : PipelineEnv) (historyId : String) (st : SystemState)
    (session : UpdateSession) :
    Except StageFailure (SystemState × UpdateSession) :=
  if session.wasRunning then
    let (st, session) :=
      updateSessionStatus st session UpdateStatus.starting 90 "Starting server..."
    let st := updateHistoryStatus st historyId "starting" none
    let st := addCall st (ExtCall.startServer session.serverId)
    match env.startResult with
    | .ok _ => .ok (st, session)
    | .error m => .error (m, st, none, session)
  else .ok (st, session)

/-- Completion: status `completed`, checkpoint 100, history completed with
timestamp, `update:completed` event, notification. -/
def stageComplete (env : PipelineEnv) (historyId : String) (st : SystemState)
    (session : UpdateSession) : SystemState :=
  let (st, session) :=
    updateSessionStatus st session UpdateStatus.completed 100
      "Update completed successfully"
  let st := updateHistoryStatus st historyId "completed" none
  let st := updateHistory st historyId fun h =>
    { h with completedAt := some env.now }
  let st := emit st (Event.completed session.sessionId)
  let st := addCall st (ExtCall.notify "server_update_completed")
  st

/-- The `try` block of `executeUpdatePipeline`, stage by stage. -/
def pipelineBody (env : PipelineEnv) (server : Server) (session : UpdateSession)
    (historyId : String) (st : SystemState) : Except StageFailure SystemState :=
  match stageStop env historyId st session with
  | .error e => .error e
  | .ok (st, session) =>
    match stageBackup env historyId st session with
    | .error e => .error e
    | .ok (st, session) =>
      let p3 := stagePreserve env server historyId st session
      match stageWipe env server p3.2.2 p3.2.1 p3.1 with
      | .error e => .error e
      | .ok st =>
        match stageDownload env p3.2.2 st p3.2.1 with
        | .error e => .error e
        | .ok (st, session) =>
          match stageInstall env server historyId p3.2.2 st session with
          | .error e => .error e
          | .ok (st, session) =>
            match stageStart env historyId st session with
            | .error e => .error e
            | .ok (st, session) => .ok (stageComplete env historyId st session)

/-- The `catch` block of `executeUpdatePipeline`: best-effort cleanup of the
temp preserve directory (a cleanup failure is logged only and cannot mask
`msg`), failure recorded on session and history, `updateInProgress`
cleared, `update:failed` emitted, notification sent. -/
def failureHandler (env : PipelineEnv) (session : UpdateSession)
    (historyId : String) (msg : String) (tempPreservePath : Option Path)
    (st : SystemState) : SystemState :=
  let st := match tempPreservePath with
    | some t => if env.cleanupOk then { st with fs := removeTree st.fs t } else st
    | none => st
  let session := { session with
    status := UpdateStatus.failed
    error := some msg }
  let st := { st with sessions := setAssoc st.sessions session.sessionId session }
  let st := updateHistoryStatus st historyId "failed" (some msg)
  let st := updateServer st session.serverId fun s => { s with updateInProgress := false }
  let st := emit st (Event.failed session.sessionId msg)
  let st := addCall st (ExtCall.notify "server_update_failed")
  st

/-- `executeUpdatePipeline(session, historyId)`.  The initial server lookup
happens before the `try`, so its failure does not reach the failure
handler: the rejection is swallowed by the log-only `.catch` in
`startUpdate` and the state is left as it was. -/
def executeUpdatePipeline (env : PipelineEnv) (session : UpdateSession)
    (historyId : String) (st : SystemState) : SystemState :=
  match findServer st session.serverId with
  | none => st
  | some server =>
    match pipelineBody env server session historyId st with
    | .ok st' => st'
    | .error (msg, stF, tempF, sessF) => failureHandler env sessF historyId msg tempF stF

/-! ### Generic state-helper lemmas -/

theorem lookupAssoc_setAssoc_self {α : Type} (m : List (String × α)) (k : String)
    (v : α) : lookupAssoc (setAssoc m k v) k = some v := by
  simp [lookupAssoc, setAssoc]

theorem pathExistsFS_false_no_entry {fs : FS} {p : Path}
    (h : pathExistsFS fs p = false) : ∀ e ∈ fs, tailAfter p e.1 = none := by
  intro e he
  cases hta : tailAfter p e.1 with
  | none => rfl
  | some r =>
    exfalso
    have htrue : pathExistsFS fs p = true := by
      simp only [pathExistsFS, List.any_eq_true]
      exact ⟨e, he, by rw [hta]; rfl⟩
    rw [h] at htrue
    cases htrue

theorem pathExistsFS_append_left {l₁ : FS} {p : Path}
    (h : pathExistsFS l₁ p = true) (l₂ : FS) : pathExistsFS (l₁ ++ l₂) p = true := by
  simp only [pathExistsFS, List.any_eq_true] at h ⊢
  obtain ⟨e, he, hx⟩ := h
  exact ⟨e, List.mem_append_left _ he, hx⟩

/-! ### Claim C6: `removeWithRetry` -/

theorem removeWithRetryGo_step_none {outcomes : Nat → Option String}
    {maxA delayMs a : Nat} (hle : a ≤ maxA) (ho : outcomes a = none) :
    removeWithRetryGo outcomes maxA delayMs a = ⟨.ok (), a, []⟩ := by
  rw [removeWithRetryGo, if_pos hle, ho]

theorem removeWithRetryGo_step_stop {outcomes : Nat → Option String}
    {maxA delayMs a : Nat} {c : String} (hle : a ≤ maxA) (ho : outcomes a = some c)
    (hcond : ¬(c ∈ LOCKED_FILE_ERRORS ∧ a < maxA)) :
    removeWithRetryGo outcomes maxA delayMs a = ⟨.error c, a, []⟩ := by
  rw [removeWithRetryGo, if_pos hle, ho]
  exact dif_neg hcond

theorem removeWithRetryGo_step_retry {outcomes : Nat → Option String}
    {maxA delayMs a : Nat} {c : String} (hle : a ≤ maxA) (ho : outcomes a = some c)
    (hcond : c ∈ LOCKED_FILE_ERRORS ∧ a < maxA) :
    removeWithRetryGo outcomes maxA delayMs a =
      ⟨(removeWithRetryGo outcomes maxA delayMs (a + 1)).res,
       (removeWithRetryGo outcomes maxA delayMs (a + 1)).attempts,
       delayMs :: (removeWithRetryGo outcomes maxA delayMs (a + 1)).delays⟩ := by
  rw [removeWithRetryGo, if_pos hle, ho]
  exact dif_pos hcond

theorem removeWithRetryGo_spec (outcomes : Nat → Option String)
    (maxA delayMs : Nat) :
    ∀ k a, maxA - a = k → 1 ≤ a → a ≤ maxA →
    (a ≤ (removeWithRetryGo outcomes maxA delayMs a).attempts ∧
     (removeWithRetryGo outcomes maxA delayMs a).attempts ≤ maxA) ∧
    (∀ j, a ≤ j → j < (removeWithRetryGo outcomes maxA delayMs a).attempts →
      ∃ c, outcomes j = some c ∧ c ∈ LOCKED_FILE_ERRORS) ∧
    ((removeWithRetryGo outcomes maxA delayMs a).res = .ok () ↔
      outcomes (removeWithRetryGo outcomes maxA delayMs a).attempts = none) ∧
    (∀ c, outcomes (removeWithRetryGo outcomes maxA delayMs a).attempts = some c →
      (removeWithRetryGo outcomes maxA delayMs a).res = .error c ∧
      (c ∈ LOCKED_FILE_ERRORS → (removeWithRetryGo outcomes maxA delayMs a).attempts = maxA)) ∧
    (removeWithRetryGo outcomes maxA delayMs a).delays =
      List.replicate ((removeWithRetryGo outcomes maxA delayMs a).attempts - a) delayMs := by
  intro k
  induction k with
  | zero =>
    intro a hk h1 hle
    have ha : a = maxA := by omega
    subst ha
    cases ho : outcomes a with
    | none =>
      rw [removeWithRetryGo_step_none hle ho]
      dsimp only
      refine ⟨⟨le_refl _, le_refl _⟩, ?_, ?_, ?_, ?_⟩
      · intro j hj1 hj2; omega
      · simp [ho]
      · intro c hc; rw [ho] at hc; cases hc
      · simp
    | some c =>
      have hcond : ¬(c ∈ LOCKED_FILE_ERRORS ∧ a < a) := fun hcc => absurd hcc.2 (lt_irrefl a)
      rw [removeWithRetryGo_step_stop hle ho hcond]
      dsimp only
      refine ⟨⟨le_refl _, le_refl _⟩, ?_, ?_, ?_, ?_⟩
      · intro j hj1 hj2; omega
      · simp [ho]
      · intro c' hc'
        rw [ho] at hc'
        cases hc'
        exact ⟨rfl, fun _ => rfl⟩
      · simp
  | succ n ih =>
    intro a hk h1 hle
    have hlt : a < maxA := by omega
    cases ho : outcomes a with
    | none =>
      rw [removeWithRetryGo_step_none hle ho]
      dsimp only
      refine ⟨⟨le_refl _, hle⟩, ?_, ?_, ?_, ?_⟩
      · intro j hj1 hj2; omega
      · simp [ho]
      · intro c hc; rw [ho] at hc; cases hc
      · simp
    | some c =>
      by_cases hc : c ∈ LOCKED_FILE_ERRORS
      · have hcond : c ∈ LOCKED_FILE_ERRORS ∧ a < maxA := ⟨hc, hlt⟩
        rw [removeWithRetryGo_step_retry hle ho hcond]
        dsimp only
        have ihr := ih (a + 1) (by omega) (by omega) (by omega)
        obtain ⟨⟨hb1, hb2⟩, hprior, hok, herr, hdel⟩ := ihr
        refine ⟨⟨by omega, hb2⟩, ?_, hok, herr, ?_⟩
        · intro j hja hjlt
          rcases Nat.eq_or_lt_of_le hja with hj | hj
          · exact ⟨c, by rw [hj] at ho; exact ho, hc⟩
          · exact hprior j (by omega) hjlt
        · rw [hdel]
          have hrw : (removeWithRetryGo outcomes maxA delayMs (a + 1)).attempts - a =
              ((removeWithRetryGo outcomes maxA delayMs (a + 1)).attempts - (a + 1)) + 1 := by
            omega
          rw [hrw, List.replicate_succ]
      · have hcond : ¬(c ∈ LOCKED_FILE_ERRORS ∧ a < maxA) := fun hcc => hc hcc.1
        rw [removeWithRetryGo_step_stop hle ho hcond]
        dsimp only
        refine ⟨⟨le_refl _, hle⟩, ?_, ?_, ?_, ?_⟩
        · intro j hj1 hj2; omega
        · simp [ho]
        · intro c' hc'
          rw [ho] at hc'
          cases hc'
          exact ⟨rfl, fun hmem => absurd hmem hc⟩
        · simp

/-- Claim C6: `removeWithRetry` makes at most `maxAttempts` attempts; it
succeeds iff one of the attempts it makes succeeds; every attempt before
the last one failed with a lock-class code (so a non-lock error stops the
loop immediately); the stopping attempt's error is rethrown verbatim, and a
lock-class error can only be rethrown on the final attempt; every retry is
preceded by exactly one fixed `delayMs` backoff. -/
theorem removeWithRetry_spec (outcomes : Nat → Option String)
    (maxAttempts delayMs : Nat) (h : 1 ≤ maxAttempts) :
    (1 ≤ (removeWithRetry outcomes maxAttempts delayMs).attempts ∧
     (removeWithRetry outcomes maxAttempts delayMs).attempts ≤ maxAttempts) ∧
    ((removeWithRetry outcomes maxAttempts delayMs).res = .ok () ↔
      ∃ kk, 1 ≤ kk ∧ kk ≤ (removeWithRetry outcomes maxAttempts delayMs).attempts ∧
        outcomes kk = none) ∧
    (∀ c, outcomes (removeWithRetry outcomes maxAttempts delayMs).attempts = some c →
      (removeWithRetry outcomes maxAttempts delayMs).res = .error c) ∧
    (∀ j c, 1 ≤ j → j < (removeWithRetry outcomes maxAttempts delayMs).attempts →
      outcomes j = some c → c ∈ LOCKED_FILE_ERRORS) ∧
    (∀ c, outcomes (removeWithRetry outcomes maxAttempts delayMs).attempts = some c →
      c ∈ LOCKED_FILE_ERRORS →
      (removeWithRetry outcomes maxAttempts delayMs).attempts = maxAttempts) ∧
    (removeWithRetry outcomes maxAttempts delayMs).delays =
      List.replicate ((removeWithRetry outcomes maxAttempts delayMs).attempts - 1) delayMs := by
  have hs := removeWithRetryGo_spec outcomes maxAttempts delayMs (maxAttempts - 1) 1
    rfl (le_refl 1) h
  obtain ⟨⟨hb1, hb2⟩, hprior, hok, herr, hdel⟩ := hs
  unfold removeWithRetry
  refine ⟨⟨hb1, hb2⟩, ?_, ?_, ?_, ?_, hdel⟩
  · constructor
    · intro hres
      exact ⟨_, hb1, le_refl _, hok.mp hres⟩
    · rintro ⟨kk, hk1, hk2, hknone⟩
      rcases Nat.eq_or_lt_of_le hk2 with hkeq | hklt
      · exact hok.mpr (hkeq ▸ hknone)
      · obtain ⟨c, hc, _⟩ := hprior kk hk1 hklt
        rw [hknone] at hc
        cases hc
  · intro c hc
    exact (herr c hc).1
  · intro j c hj1 hj2 hjc
    obtain ⟨c', hc', hmem⟩ := hprior j hj1 hj2
    rw [hjc] at hc'
    cases hc'
    exact hmem
  · intro c hc hmem
    exact (herr c hc).2 hmem

/-! ### Claim C8: termination and classification of the download wait -/

theorem waitForDownloadGo_timeout (cancelled : Nat → Bool)
    (provider : Nat → Option DlSnapshot) :
    ∀ fuel t, (∀ i, i < fuel → pollVerdict cancelled provider (t + i) = none) →
    waitForDownloadGo cancelled provider t fuel = .error "Download timed out" := by
  intro fuel
  induction fuel with
  | zero => intro t _; rfl
  | succ n ih =>
    intro t h
    have h0 : pollVerdict cancelled provider t = none := by
      simpa using h 0 (by omega)
    rw [waitForDownloadGo, h0]
    apply ih
    intro i hi
    have h' := h (i + 1) (by omega)
    have heq : t + 1 + i = t + (i + 1) := by omega
    rw [heq]
    exact h' 

theorem waitForDownloadGo_first (cancelled : Nat → Bool)
    (provider : Nat → Option DlSnapshot) :
    ∀ i fuel t r, i < fuel →
    (∀ j, j < i → pollVerdict cancelled provider (t + j) = none) →
    pollVerdict cancelled provider (t + i) = some r →
    waitForDownloadGo cancelled provider t fuel = r := by
  intro i
  induction i with
  | zero =>
    intro fuel t r hlt _ hv
    cases fuel with
    | zero => omega
    | succ n =>
      rw [Nat.add_zero] at hv
      rw [waitForDownloadGo, hv]
  | succ m ih =>
    intro fuel t r hlt hprior hv
    cases fuel with
    | zero => omega
    | succ n =>
      have h0 : pollVerdict cancelled provider t = none := by
        simpa using hprior 0 (by omega)
      rw [waitForDownloadGo, h0]
      apply ih n (t + 1) r (by omega)
      · intro j hj
        have h' := hprior (j + 1) (by omega)
        have heq : t + 1 + j = t + (j + 1) := by omega
        rw [heq]
        exact h'
      · have heq : t + 1 + m = t + (m + 1) := by omega
        rw [heq]
        exact hv

/-- Claim C8: the download wait always terminates with a classified result.
`pollVerdict` formalises one poll tick: cancellation of the update session
rejects, a vanished provider session rejects, provider status `complete`
resolves, provider status `failed` rejects with the provider's error; in
every remaining case the poll continues, and if no tick settles the wait
within the 30-minute ceiling, the wait rejects with the timeout error. -/
theorem waitForDownload_terminates (cancelled : Nat → Bool)
    (provider : Nat → Option DlSnapshot) :
    ((∀ t, t < downloadTimeoutTicks → pollVerdict cancelled provider t = none) →
      waitForDownload cancelled provider = .error "Download timed out") ∧
    (∀ t r, t < downloadTimeoutTicks →
      (∀ j, j < t → pollVerdict cancelled provider j = none) →
      pollVerdict cancelled provider t = some r →
      waitForDownload cancelled provider = r) ∧
    (∀ t, cancelled t = true →
      pollVerdict cancelled provider t = some (.error "Update cancelled")) ∧
    (∀ t, cancelled t = false → provider t = none →
      pollVerdict cancelled provider t = some (.error "Download session not found")) ∧
    (∀ t snap, cancelled t = false → provider t = some snap →
      snap.status = DlStatus.complete →
      pollVerdict cancelled provider t = some (.ok ())) ∧
    (∀ t snap, cancelled t = false → provider t = some snap →
      snap.status = DlStatus.failed →
      pollVerdict cancelled provider t = some (.error (snap.error.getD "Download failed"))) := by
  refine ⟨?_, ?_, ?_, ?_, ?_, ?_⟩
  · intro h
    exact waitForDownloadGo_timeout cancelled provider downloadTimeoutTicks 0
      (fun i hi => by simpa using h i hi)
  · intro t r ht hprior hv
    exact waitForDownloadGo_first cancelled provider t downloadTimeoutTicks 0 r ht
      (fun j hj => by simpa using hprior j hj) (by simpa using hv)
  · intro t hc; simp [pollVerdict, hc]
  · intro t hc hp; simp [pollVerdict, hc, hp]
  · intro t snap hc hp hs; simp [pollVerdict, hc, hp, hs]
  · intro t snap hc hp hs; simp [pollVerdict, hc, hp, hs]

/-! ### Claim C3: the four `startUpdate` preconditions -/

/-- Claim C3: `startUpdate` rejects synchronously, each case with its own
reason, before any state mutation: the error value carries the state as of
the throw, which is the input state itself (at most extended by the record
of the provider query, which touches neither the session map nor the
history list nor any server record — the last conjunct). -/
theorem startUpdate_preconditions (latest : Except String (Option String))
    (now : Nat) (serverId : String) (targetVersion : Option String)
    (st : SystemState) :
    (findServer st serverId = none →
      startUpdate latest now serverId targetVersion st =
        .error ("Server " ++ serverId ++ " not found", st)) ∧
    (∀ server, findServer st serverId = some server →
      server.updateInProgress = true →
      startUpdate latest now serverId targetVersion st =
        .error ("Server " ++ server.name ++ " is already being updated", st)) ∧
    (∀ server, findServer st serverId = some server →
      server.updateInProgress = false → targetVersion = none →
      (∀ m, latest = .error m →
        startUpdate latest now serverId targetVersion st =
          .error ("Could not determine latest version: " ++ m,
            addCall st ExtCall.getGameVersion)) ∧
      (latest = .ok none →
        startUpdate latest now serverId targetVersion st =
          .error ("Could not determine latest version: Could not determine latest version. Please ensure the Hytale downloader is authenticated.",
            addCall st ExtCall.getGameVersion)) ∧
      (latest = .ok (some server.version) →
        startUpdate latest now serverId targetVersion st =
          .error ("Server is already at version " ++ server.version,
            addCall st ExtCall.getGameVersion))) ∧
    (∀ server, findServer st serverId = some server →
      server.updateInProgress = false → targetVersion = some server.version →
      startUpdate latest now serverId targetVersion st =
        .error ("Server is already at version " ++ server.version, st)) ∧
    (∀ c, (addCall st c).sessions = st.sessions ∧ (addCall st c).history = st.history ∧
      (addCall st c).servers = st.servers) := by
  refine ⟨?_, ?_, ?_, ?_, ?_⟩
  · intro h
    unfold startUpdate
    rw [h]
  · intro server hsrv hip
    unfold startUpdate
    rw [hsrv]
    simp only [hip, if_true]
  · intro server hsrv hip htv
    subst htv
    refine ⟨?_, ?_, ?_⟩
    · intro m hm
      subst hm
      unfold startUpdate
      rw [hsrv]
      simp only [hip, Bool.false_eq_true, if_false]
    · intro hm
      subst hm
      unfold startUpdate
      rw [hsrv]
      simp only [hip, Bool.false_eq_true, if_false]
    · intro hm
      subst hm
      unfold startUpdate
      rw [hsrv]
      simp [hip]
  · intro server hsrv hip htv
    subst htv
    unfold startUpdate
    rw [hsrv]
    simp [hip]
  · intro c
    exact ⟨rfl, rfl, rfl⟩

/-! ### Claim C10: an explicit target version never queries the provider -/

/-- Claim C10: with an explicit `targetVersion`, `startUpdate` is
independent of the Download Provider outcome (first conjunct: any two
provider behaviours yield the same result), and under the remaining
preconditions it succeeds, creates the session, and records no
`getGameVersion` call. -/
theorem startUpdate_explicitTarget_no_provider_query
    (latest latest' : Except String (Option String)) (now : Nat)
    (serverId v : String) (st : SystemState) (server : Server)
    (hsrv : findServer st serverId = some server)
    (hip : server.updateInProgress = false)
    (hv : v ≠ server.version)
    (hcalls : ExtCall.getGameVersion ∉ st.calls) :
    startUpdate latest now serverId (some v) st =
      startUpdate latest' now serverId (some v) st ∧
    ∃ sess st', startUpdate latest now serverId (some v) st = .ok (sess, st') ∧
      ExtCall.getGameVersion ∉ st'.calls ∧
      lookupAssoc st'.sessions sess.sessionId = some sess ∧
      sess.toVersion = v ∧ sess.fromVersion = server.version ∧
      sess.status = UpdateStatus.pending := by
  constructor
  · unfold startUpdate
    rw [hsrv]
  · unfold startUpdate
    rw [hsrv]
    simp only [hip, Bool.false_eq_true, if_false, if_neg hv]
    refine ⟨_, _, rfl, ?_, ?_, rfl, rfl, rfl⟩
    · simp only [addCall, emit]
      simp only [List.mem_append, List.mem_singleton]
      rintro (h | h)
      · exact hcalls h
      · cases h
    · exact lookupAssoc_setAssoc_self _ _ _

/-! ### Claim C4: `cancelUpdate` -/

@[simp] theorem fsIte_sessions (b : Bool) (st : SystemState) (X : FS) :
    (if b then { st with fs := X } else st).sessions = st.sessions := by
  cases b <;> rfl

@[simp] theorem fsIte_calls (b : Bool) (st : SystemState) (X : FS) :
    (if b then { st with fs := X } else st).calls = st.calls := by
  cases b <;> rfl

@[simp] theorem fsIte_servers (b : Bool) (st : SystemState) (X : FS) :
    (if b then { st with fs := X } else st).servers = st.servers := by
  cases b <;> rfl

@[simp] theorem fsIte_events (b : Bool) (st : SystemState) (X : FS) :
    (if b then { st with fs := X } else st).events = st.events := by
  cases b <;> rfl

@[simp] theorem fsIte_history (b : Bool) (st : SystemState) (X : FS) :
    (if b then { st with fs := X } else st).history = st.history := by
  cases b <;> rfl

/-- Claim C4 (amended): `cancelUpdate` rejects an unknown session and a
session whose status is `completed` or `failed`, leaving the state
untouched; for every other existing session — including a hypothetical
`rolled_back` one, which the guard does not check (the service never
assigns `rolled_back` to an in-memory session) — it records the
user-attributable failure on the session, routes a cancellation to the
Download Provider when a download is in flight, removes the temp preserve
directory provided the best-effort remove succeeds (a remove failure is
caught and logged, the cancel still completes), clears the server's
`updateInProgress` flag and emits the cancellation event. -/
theorem cancelUpdate_spec (removeOk : Bool) (sessionId : String) (st : SystemState) :
    (lookupAssoc st.sessions sessionId = none →
      cancelUpdate removeOk sessionId st = .error ("Update session not found", st)) ∧
    (∀ session, lookupAssoc st.sessions sessionId = some session →
      (session.status = UpdateStatus.completed ∨ session.status = UpdateStatus.failed) →
      cancelUpdate removeOk sessionId st =
        .error ("Cannot cancel a completed or failed update", st)) ∧
    (∀ session, lookupAssoc st.sessions sessionId = some session →
      session.status ≠ UpdateStatus.completed → session.status ≠ UpdateStatus.failed →
      ∃ st', cancelUpdate removeOk sessionId st = .ok st' ∧
        lookupAssoc st'.sessions sessionId = some { session with
          status := UpdateStatus.failed
          error := some "Update cancelled by user" } ∧
        (∀ d, session.downloadSessionId = some d →
          ExtCall.cancelDownload d ∈ st'.calls) ∧
        (∀ t, session.tempPreservePath = some t → removeOk = true →
          ∀ e ∈ st'.fs, tailAfter t e.1 = none) ∧
        (∀ s ∈ st'.servers, s.id = session.serverId → s.updateInProgress = false) ∧
        Event.cancelled sessionId session.serverId ∈ st'.events) := by
  refine ⟨?_, ?_, ?_⟩
  · intro h
    unfold cancelUpdate
    rw [h]
  · intro session hs hterm
    unfold cancelUpdate
    rw [hs]
    simp only [if_pos hterm]
  · intro session hs hnc hnf
    have hterm : ¬(session.status = UpdateStatus.completed ∨
        session.status = UpdateStatus.failed) := by
      rintro (h | h)
      · exact hnc h
      · exact hnf h
    unfold cancelUpdate
    rw [hs]
    simp only [if_neg hterm]
    refine ⟨_, rfl, ?_, ?_, ?_, ?_, ?_⟩
    · exact lookupAssoc_setAssoc_self _ _ _
    · intro d hd
      rw [hd]
      cases session.tempPreservePath with
      | none => simp [addCall, emit, updateServer]
      | some t =>
        by_cases hex : pathExistsFS st.fs t = true
        · cases removeOk <;> simp [addCall, emit, updateServer, hex]
        · simp [addCall, emit, updateServer, hex]
    · intro t ht hrm e he
      subst hrm
      rw [ht] at he
      cases hd : session.downloadSessionId with
      | none =>
        rw [hd] at he
        by_cases hex : pathExistsFS st.fs t = true
        · simp only [hex, if_true, emit, updateServer] at he
          exact removeTree_no_entry _ _ e he
        · simp only [hex, Bool.false_eq_true, if_false, emit, updateServer] at he
          exact pathExistsFS_false_no_entry (Bool.eq_false_iff.mpr hex) e he
      | some d =>
        rw [hd] at he
        by_cases hex : pathExistsFS st.fs t = true
        · simp only [addCall, hex, if_true, emit, updateServer] at he
          exact removeTree_no_entry _ _ e he
        · simp only [addCall, hex, Bool.false_eq_true, if_false, emit, updateServer] at he
          exact pathExistsFS_false_no_entry (Bool.eq_false_iff.mpr hex) e he
    · intro s hsmem hsid
      simp only [emit, updateServer, List.mem_map] at hsmem
      obtain ⟨s₀, _, hmap⟩ := hsmem
      by_cases hid : (s₀.id == session.serverId) = true
      · rw [if_pos hid] at hmap
        rw [← hmap]
      · rw [if_neg hid] at hmap
        rw [← hmap] at hsid
        exact absurd (beq_iff_eq.mpr hsid) hid
    · simp [emit, updateServer, addCall]

/-! ### Claim C5: `rollback` -/

theorem latestStep_cases (acc : Option HistoryRecord) (x : HistoryRecord) :
    latestStep acc x = some x ∨
    (latestStep acc x = acc ∧ ∃ a, acc = some a ∧ x.startedAt ≤ a.startedAt) := by
  cases acc with
  | none => exact Or.inl rfl
  | some a =>
    by_cases hgt : x.startedAt > a.startedAt
    · exact Or.inl (by simp [latestStep, hgt])
    · exact Or.inr ⟨by simp [latestStep, hgt], a, rfl, by omega⟩

theorem foldLatest_spec :
    ∀ (l : List HistoryRecord) (acc : Option HistoryRecord) (h : HistoryRecord),
      l.foldl latestStep acc = some h →
      (h ∈ l ∨ acc = some h) ∧
      (∀ h' ∈ l, h'.startedAt ≤ h.startedAt) ∧
      (∀ a, acc = some a → a.startedAt ≤ h.startedAt) := by
  intro l
  induction l with
  | nil =>
    intro acc h hfold
    rw [List.foldl_nil] at hfold
    refine ⟨Or.inr hfold, by simp, ?_⟩
    intro a ha
    rw [ha] at hfold
    cases hfold
    exact le_refl _
  | cons x xs ih =>
    intro acc h hfold
    rw [List.foldl_cons] at hfold
    obtain ⟨hmem, hbound, hacc⟩ := ih (latestStep acc x) h hfold
    have hstep := latestStep_cases acc x
    have hxle : x.startedAt ≤ h.startedAt := by
      rcases hstep with hsx | ⟨hsa, a, ha, hxa⟩
      · exact hacc x hsx
      · exact le_trans hxa (hacc a (by rw [hsa, ha]))
    refine ⟨?_, ?_, ?_⟩
    · rcases hmem with hm | hm
      · exact Or.inl (List.mem_cons_of_mem _ hm)
      · rcases hstep with hsx | ⟨hsa, _, _, _⟩
        · rw [hm] at hsx
          have hx : h = x := Option.some.inj hsx
          exact Or.inl (hx ▸ List.mem_cons_self _ _)
        · refine Or.inr ?_
          rw [← hsa]
          exact hm
    · intro h' hh'
      rcases List.mem_cons.mp hh' with hh | hh
      · rw [hh]; exact hxle
      · exact hbound h' hh
    · intro a ha
      rcases hstep with hsx | ⟨hsa, a', ha', hxa⟩
      · rw [ha] at hsx
        by_cases hgt : x.startedAt > a.startedAt
        · exact le_trans (by omega) hxle
        · simp only [latestStep, if_neg hgt] at hsx
          have hax : a = x := Option.some.inj hsx
          rw [hax]
          exact hxle
      · apply hacc
        rw [hsa, ha]

theorem findLatestHistory_spec {st : SystemState} {serverId backupId : String}
    {h : HistoryRecord} (hfind : findLatestHistory st serverId backupId = some h) :
    h ∈ st.history ∧ h.serverId = serverId ∧ h.backupId = some backupId ∧
    ∀ h' ∈ st.history, h'.serverId = serverId → h'.backupId = some backupId →
      h'.startedAt ≤ h.startedAt := by
  unfold findLatestHistory at hfind
  obtain ⟨hmem, hbound, _⟩ := foldLatest_spec _ none h hfind
  rcases hmem with hm | hm
  · have hfilter := List.mem_filter.mp hm
    have hprops := hfilter.2
    simp only [Bool.and_eq_true, beq_iff_eq] at hprops
    refine ⟨hfilter.1, hprops.1, hprops.2, ?_⟩
    intro h' hh' hs hb
    exact hbound h' (List.mem_filter.mpr ⟨hh', by simp [hs, hb]⟩)
  · cases hm

/-- Claim C5 (amended): `rollback` is a hard failure, mutating nothing,
when the server carries no `preUpdateBackupId`.  When it does and at least
one history record matches that backup id, the completed rollback sets the
server's version to the `fromVersion` of the most recent matching record
(the record `findLatestHistory` returns, shown here to be a matching record
maximal in `startedAt`), clears `preUpdateBackupId` and marks that record
`rolled_back` — all without reading the in-memory session map (`st.sessions`
is arbitrary here and comes through unchanged).  When no record matches,
the rollback still completes but leaves both the version and
`preUpdateBackupId` untouched. -/
theorem rollback_spec (serverId : String) (st : SystemState) :
    (∀ server, findServer st serverId = some server →
      server.preUpdateBackupId = none →
      rollback serverId st =
        .error ("No pre-update backup available for rollback", st)) ∧
    (∀ server bid h, findServer st serverId = some server →
      server.preUpdateBackupId = some bid →
      findLatestHistory st serverId bid = some h →
      (h ∈ st.history ∧ h.serverId = serverId ∧ h.backupId = some bid ∧
        ∀ h' ∈ st.history, h'.serverId = serverId → h'.backupId = some bid →
          h'.startedAt ≤ h.startedAt) ∧
      ∃ st', rollback serverId st = .ok st' ∧
        (∀ s ∈ st'.servers, s.id = serverId →
          s.version = h.fromVersion ∧ s.preUpdateBackupId = none) ∧
        (∀ r ∈ st'.history, r.id = h.id → r.status = "rolled_back") ∧
        st'.sessions = st.sessions ∧
        Event.rollbackCompleted serverId ∈ st'.events) ∧
    (∀ server bid, findServer st serverId = some server →
      server.preUpdateBackupId = some bid →
      findLatestHistory st serverId bid = none →
      ∃ st', rollback serverId st = .ok st' ∧
        st'.servers = st.servers ∧ st'.history = st.history) := by
  refine ⟨?_, ?_, ?_⟩
  · intro server hsrv hnone
    unfold rollback
    rw [hsrv]
    dsimp only
    rw [hnone]
  · intro server bid h hsrv hbid hfind
    refine ⟨findLatestHistory_spec hfind, ?_⟩
    unfold rollback
    rw [hsrv]
    dsimp only
    rw [hbid]
    dsimp only
    have hfind' : findLatestHistory
        (addCall (if server.status == "running"
          then addCall st (ExtCall.stopServer serverId) else st)
          (ExtCall.restoreBackup bid)) serverId bid = some h := by
      unfold findLatestHistory at hfind ⊢
      by_cases hrun : (server.status == "running") = true
      · simp only [hrun, if_true, addCall]
        exact hfind
      · simp only [hrun, Bool.false_eq_true, if_false, addCall]
        exact hfind
    rw [hfind']
    refine ⟨_, rfl, ?_, ?_, ?_, ?_⟩
    · intro s hsmem hsid
      by_cases hrun : (server.status == "running") = true <;>
      · simp only [hrun, emit, addCall, updateServer, updateHistory, if_true,
          Bool.false_eq_true, if_false, List.mem_map] at hsmem
        obtain ⟨s₀, _, hmap⟩ := hsmem
        by_cases hid : (s₀.id == serverId) = true
        · rw [if_pos hid] at hmap
          rw [← hmap]
          exact ⟨rfl, rfl⟩
        · rw [if_neg hid] at hmap
          rw [← hmap] at hsid
          exact absurd (beq_iff_eq.mpr hsid) hid
    · intro r hrmem hrid
      by_cases hrun : (server.status == "running") = true <;>
      · simp only [hrun, emit, addCall, updateServer, updateHistory, if_true,
          Bool.false_eq_true, if_false, List.mem_map] at hrmem
        obtain ⟨r₀, _, hmap⟩ := hrmem
        by_cases hid : (r₀.id == h.id) = true
        · rw [if_pos hid] at hmap
          rw [← hmap]
        · rw [if_neg hid] at hmap
          rw [← hmap] at hrid
          exact absurd (beq_iff_eq.mpr hrid) hid
    · by_cases hrun : (server.status == "running") = true <;>
        simp [hrun, emit, addCall, updateServer, updateHistory]
    · by_cases hrun : (server.status == "running") = true <;>
        simp [hrun, emit, addCall, updateServer, updateHistory]
  · intro server bid hsrv hbid hfind
    unfold rollback
    rw [hsrv]
    dsimp only
    rw [hbid]
    dsimp only
    have hfind' : findLatestHistory
        (addCall (if server.status == "running"
          then addCall st (ExtCall.stopServer serverId) else st)
          (ExtCall.restoreBackup bid)) serverId bid = none := by
      unfold findLatestHistory at hfind ⊢
      by_cases hrun : (server.status == "running") = true
      · simp only [hrun, if_true, addCall]
        exact hfind
      · simp only [hrun, Bool.false_eq_true, if_false, addCall]
        exact hfind
    rw [hfind']
    refine ⟨_, rfl, ?_, ?_⟩
    · by_cases hrun : (server.status == "running") = true <;>
        simp [hrun, emit, addCall]
    · by_cases hrun : (server.status == "running") = true <;>
        simp [hrun, emit, addCall]

/-! ### Projection lemmas for the pipeline primitives -/

@[simp] theorem updateSessionStatus_fst_events (st : SystemState) (s : UpdateSession)
    (u : UpdateStatus) (p : Nat) (m : String) :
    (updateSessionStatus st s u p m).1.events =
      st.events ++ [Event.progress s.sessionId u p] := rfl

@[simp] theorem updateSessionStatus_fst_calls (st : SystemState) (s : UpdateSession)
    (u : UpdateStatus) (p : Nat) (m : String) :
    (updateSessionStatus st s u p m).1.calls = st.calls := rfl

@[simp] theorem updateSessionStatus_fst_fs (st : SystemState) (s : UpdateSession)
    (u : UpdateStatus) (p : Nat) (m : String) :
    (updateSessionStatus st s u p m).1.fs = st.fs := rfl

@[simp] theorem updateSessionStatus_fst_history (st : SystemState) (s : UpdateSession)
    (u : UpdateStatus) (p : Nat) (m : String) :
    (updateSessionStatus st s u p m).1.history = st.history := rfl

@[simp] theorem updateSessionStatus_fst_servers (st : SystemState) (s : UpdateSession)
    (u : UpdateStatus) (p : Nat) (m : String) :
    (updateSessionStatus st s u p m).1.servers = st.servers := rfl

@[simp] theorem updateSessionStatus_fst_sessions (st : SystemState) (s : UpdateSession)
    (u : UpdateStatus) (p : Nat) (m : String) :
    (updateSessionStatus st s u p m).1.sessions =
      setAssoc st.sessions s.sessionId
        { s with status := u, progress := p, message := some m } := rfl

@[simp] theorem updateSessionStatus_snd (st : SystemState) (s : UpdateSession)
    (u : UpdateStatus) (p : Nat) (m : String) :
    (updateSessionStatus st s u p m).2 =
      { s with status := u, progress := p, message := some m } := rfl

@[simp] theorem updateHistoryStatus_events (st : SystemState) (hid s : String)
    (e : Option String) : (updateHistoryStatus st hid s e).events = st.events := rfl

@[simp] theorem updateHistoryStatus_calls (st : SystemState) (hid s : String)
    (e : Option String) : (updateHistoryStatus st hid s e).calls = st.calls := rfl

@[simp] theorem updateHistoryStatus_fs (st : SystemState) (hid s : String)
    (e : Option String) : (updateHistoryStatus st hid s e).fs = st.fs := rfl

@[simp] theorem updateHistoryStatus_servers (st : SystemState) (hid s : String)
    (e : Option String) : (updateHistoryStatus st hid s e).servers = st.servers := rfl

@[simp] theorem updateHistoryStatus_sessions (st : SystemState) (hid s : String)
    (e : Option String) : (updateHistoryStatus st hid s e).sessions = st.sessions := rfl

@[simp] theorem addCall_events (st : SystemState) (c : ExtCall) :
    (addCall st c).events = st.events := rfl

@[simp] theorem addCall_calls (st : SystemState) (c : ExtCall) :
    (addCall st c).calls = st.calls ++ [c] := rfl

@[simp] theorem addCall_fs (st : SystemState) (c : ExtCall) :
    (addCall st c).fs = st.fs := rfl

@[simp] theorem addCall_history (st : SystemState) (c : ExtCall) :
    (addCall st c).history = st.history := rfl

@[simp] theorem addCall_servers (st : SystemState) (c : ExtCall) :
    (addCall st c).servers = st.servers := rfl

@[simp] theorem addCall_sessions (st : SystemState) (c : ExtCall) :
    (addCall st c).sessions = st.sessions := rfl

@[simp] theorem emit_events (st : SystemState) (ev : Event) :
    (emit st ev).events = st.events ++ [ev] := rfl

@[simp] theorem emit_calls (st : SystemState) (ev : Event) :
    (emit st ev).calls = st.calls := rfl

@[simp] theorem emit_fs (st : SystemState) (ev : Event) :
    (emit st ev).fs = st.fs := rfl

@[simp] theorem emit_history (st : SystemState) (ev : Event) :
    (emit st ev).history = st.history := rfl

@[simp] theorem emit_servers (st : SystemState) (ev : Event) :
    (emit st ev).servers = st.servers := rfl

@[simp] theorem emit_sessions (st : SystemState) (ev : Event) :
    (emit st ev).sessions = st.sessions := rfl

@[simp] theorem updateServer_events (st : SystemState) (i : String)
    (f : Server → Server) : (updateServer st i f).events = st.events := rfl

@[simp] theorem updateServer_calls (st : SystemState) (i : String)
    (f : Server → Server) : (updateServer st i f).calls = st.calls := rfl

@[simp] theorem updateServer_fs (st : SystemState) (i : String)
    (f : Server → Server) : (updateServer st i f).fs = st.fs := rfl

@[simp] theorem updateServer_history (st : SystemState) (i : String)
    (f : Server → Server) : (updateServer st i f).history = st.history := rfl

@[simp] theorem updateServer_sessions (st : SystemState) (i : String)
    (f : Server → Server) : (updateServer st i f).sessions = st.sessions := rfl

@[simp] theorem updateHistory_events (st : SystemState) (i : String)
    (f : HistoryRecord → HistoryRecord) : (updateHistory st i f).events = st.events := rfl

@[simp] theorem updateHistory_calls (st : SystemState) (i : String)
    (f : HistoryRecord → HistoryRecord) : (updateHistory st i f).calls = st.calls := rfl

@[simp] theorem updateHistory_fs (st : SystemState) (i : String)
    (f : HistoryRecord → HistoryRecord) : (updateHistory st i f).fs = st.fs := rfl

@[simp] theorem updateHistory_servers (st : SystemState) (i : String)
    (f : HistoryRecord → HistoryRecord) : (updateHistory st i f).servers = st.servers := rfl

@[simp] theorem updateHistory_sessions (st : SystemState) (i : String)
    (f : HistoryRecord → HistoryRecord) : (updateHistory st i f).sessions = st.sessions := rfl

@[simp] theorem emitDownloadTicks_fst_events :
    ∀ (ticks : List Nat) (st : SystemState) (s : UpdateSession),
    (emitDownloadTicks st s ticks).1.events =
      st.events ++ ticks.map fun p => Event.progress s.sessionId s.status (dlProgress p) := by
  intro ticks
  induction ticks with
  | nil => intro st s; simp [emitDownloadTicks]
  | cons p rest ih =>
    intro st s
    rw [emitDownloadTicks, ih]
    simp [List.append_assoc]

@[simp] theorem emitDownloadTicks_fst_calls :
    ∀ (ticks : List Nat) (st : SystemState) (s : UpdateSession),
    (emitDownloadTicks st s ticks).1.calls = st.calls := by
  intro ticks
  induction ticks with
  | nil => intro st s; rfl
  | cons p rest ih =>
    intro st s
    rw [emitDownloadTicks, ih]
    rfl

@[simp] theorem emitDownloadTicks_fst_fs :
    ∀ (ticks : List Nat) (st : SystemState) (s : UpdateSession),
    (emitDownloadTicks st s ticks).1.fs = st.fs := by
  intro ticks
  induction ticks with
  | nil => intro st s; rfl
  | cons p rest ih =>
    intro st s
    rw [emitDownloadTicks, ih]
    rfl

@[simp] theorem emitDownloadTicks_fst_history :
    ∀ (ticks : List Nat) (st : SystemState) (s : UpdateSession),
    (emitDownloadTicks st s ticks).1.history = st.history := by
  intro ticks
  induction ticks with
  | nil => intro st s; rfl
  | cons p rest ih =>
    intro st s
    rw [emitDownloadTicks, ih]
    rfl

@[simp] theorem emitDownloadTicks_fst_servers :
    ∀ (ticks : List Nat) (st : SystemState) (s : UpdateSession),
    (emitDownloadTicks st s ticks).1.servers = st.servers := by
  intro ticks
  induction ticks with
  | nil => intro st s; rfl
  | cons p rest ih =>
    intro st s
    rw [emitDownloadTicks, ih]
    rfl

@[simp] theorem emitDownloadTicks_snd_sessionId :
    ∀ (ticks : List Nat) (st : SystemState) (s : UpdateSession),
    (emitDownloadTicks st s ticks).2.sessionId = s.sessionId := by
  intro ticks
  induction ticks with
  | nil => intro st s; rfl
  | cons p rest ih => intro st s; rw [emitDownloadTicks, ih]

@[simp] theorem emitDownloadTicks_snd_serverId :
    ∀ (ticks : List Nat) (st : SystemState) (s : UpdateSession),
    (emitDownloadTicks st s ticks).2.serverId = s.serverId := by
  intro ticks
  induction ticks with
  | nil => intro st s; rfl
  | cons p rest ih => intro st s; rw [emitDownloadTicks, ih]

@[simp] theorem emitDownloadTicks_snd_status :
    ∀ (ticks : List Nat) (st : SystemState) (s : UpdateSession),
    (emitDownloadTicks st s ticks).2.status = s.status := by
  intro ticks
  induction ticks with
  | nil => intro st s; rfl
  | cons p rest ih => intro st s; rw [emitDownloadTicks, ih]

@[simp] theorem emitDownloadTicks_snd_wasRunning :
    ∀ (ticks : List Nat) (st : SystemState) (s : UpdateSession),
    (emitDownloadTicks st s ticks).2.wasRunning = s.wasRunning := by
  intro ticks
  induction ticks with
  | nil => intro st s; rfl
  | cons p rest ih => intro st s; rw [emitDownloadTicks, ih]

@[simp] theorem emitDownloadTicks_snd_toVersion :
    ∀ (ticks : List Nat) (st : SystemState) (s : UpdateSession),
    (emitDownloadTicks st s ticks).2.toVersion = s.toVersion := by
  intro ticks
  induction ticks with
  | nil => intro st s; rfl
  | cons p rest ih => intro st s; rw [emitDownloadTicks, ih]

@[simp] theorem preserveFiles_fst (fs : FS) (serverPath : Path) (now : Nat)
    (preserved : PreservedPaths) :
    (preserveFiles fs serverPath now preserved).1 =
      serverPath ++ [tempPreserveName now] := rfl

/-! ### The shape of a fully successful pipeline run -/

/-- The event trace of a fully successful pipeline run: the fixed
checkpoints (5 and 90 only when `wasRunning`), the interpolated download
ticks, and the final `update:completed`. -/
def successEvents (sid : String) (wasRunning : Bool) (ticks : List Nat) : List Event :=
  (if wasRunning then [Event.progress sid UpdateStatus.stopping 5] else []) ++
  [Event.progress sid UpdateStatus.backing_up 15,
   Event.progress sid UpdateStatus.preserving 30,
   Event.progress sid UpdateStatus.downloading 45] ++
  (ticks.map fun p => Event.progress sid UpdateStatus.downloading (dlProgress p)) ++
  [Event.progress sid UpdateStatus.installing 70,
   Event.progress sid UpdateStatus.restoring 80] ++
  (if wasRunning then [Event.progress sid UpdateStatus.starting 90] else []) ++
  [Event.progress sid UpdateStatus.completed 100, Event.completed sid]

theorem pipeline_success_state (env : PipelineEnv) (session : UpdateSession)
    (historyId : String) (st : SystemState) (server : Server)
    (bid dsid : String)
    (hsrv : findServer st session.serverId = some server)
    (hstop : env.stopResult = .ok ())
    (hbak : env.backupResult = .ok bid)
    (hwipe : env.wipeResult = .ok ())
    (hdl : env.startDownloadResult = .ok dsid)
    (hwait : env.waitResult = .ok ())
    (hstart : env.startResult = .ok ())
    (hjar : pathExistsFS env.downloadFiles
      (server.serverPath ++ ["Server", "HytaleServer.jar"]) = true) :
    (executeUpdatePipeline env session historyId st).fs =
      restorePreservedFiles
        (env.downloadFiles ++
          (if pathExistsFS
              (preserveFiles st.fs server.serverPath env.now
                (identifyPreservedPaths env.configScanOk st.fs server.serverPath)).2
              (server.serverPath ++ ["Server"]) = true then
            wipeChildren
              (preserveFiles st.fs server.serverPath env.now
                (identifyPreservedPaths env.configScanOk st.fs server.serverPath)).2
              (server.serverPath ++ ["Server"])
          else
            (preserveFiles st.fs server.serverPath env.now
              (identifyPreservedPaths env.configScanOk st.fs server.serverPath)).2))
        (server.serverPath ++ [tempPreserveName env.now]) server.serverPath ∧
    (executeUpdatePipeline env session historyId st).events =
      st.events ++ successEvents session.sessionId session.wasRunning env.downloadTicks ∧
    ∃ s', lookupAssoc (executeUpdatePipeline env session historyId st).sessions
        session.sessionId = some s' ∧
      s'.status = UpdateStatus.completed ∧ s'.progress = 100 := by
  unfold executeUpdatePipeline
  rw [hsrv]
  unfold pipelineBody
  cases hwr : session.wasRunning
  case false =>
    simp [stageStop, stageBackup, stagePreserve, stageWipe, stageDownload,
      stageInstall, stageStart, stageComplete,
      hwr, hstop, hbak, hwipe, hdl, hwait, hstart,
      List.append_assoc, pathExistsFS_append_left hjar]
    split_ifs with hpe
    · simp [hwr, List.append_assoc, successEvents]
      exact ⟨_, lookupAssoc_setAssoc_self _ _ _, rfl, rfl⟩
    · simp [hwr, List.append_assoc, successEvents]
      exact ⟨_, lookupAssoc_setAssoc_self _ _ _, rfl, rfl⟩
  case true =>
    simp [stageStop, stageBackup, stagePreserve, stageWipe, stageDownload,
      stageInstall, stageStart, stageComplete,
      hwr, hstop, hbak, hwipe, hdl, hwait, hstart,
      List.append_assoc, pathExistsFS_append_left hjar]
    split_ifs with hpe
    · simp [hwr, List.append_assoc, successEvents]
      exact ⟨_, lookupAssoc_setAssoc_self _ _ _, rfl, rfl⟩
    · simp [hwr, List.append_assoc, successEvents]
      exact ⟨_, lookupAssoc_setAssoc_self _ _ _, rfl, rfl⟩

/-! ### Claim C7: monotone progress -/

/-- The progress percentages carried by the `update:progress` events, in
emission order. -/
def progressValues (events : List Event) : List Nat :=
  events.filterMap fun e => match e with
    | Event.progress _ _ p => some p
    | _ => none

@[simp] theorem progressValues_nil : progressValues [] = [] := rfl

@[simp] theorem progressValues_append (l₁ l₂ : List Event) :
    progressValues (l₁ ++ l₂) = progressValues l₁ ++ progressValues l₂ := by
  simp [progressValues]

@[simp] theorem progressValues_cons_progress (sid : String) (u : UpdateStatus)
    (p : Nat) (rest : List Event) :
    progressValues (Event.progress sid u p :: rest) = p :: progressValues rest := by
  simp [progressValues]

@[simp] theorem progressValues_cons_completed (sid : String) (rest : List Event) :
    progressValues (Event.completed sid :: rest) = progressValues rest := by
  simp [progressValues]

@[simp] theorem progressValues_map_progress (sid : String) (u : UpdateStatus)
    (ticks : List Nat) (f : Nat → Nat) :
    progressValues (ticks.map fun p => Event.progress sid u (f p)) = ticks.map f := by
  induction ticks with
  | nil => rfl
  | cons p rest ih => simp [progressValues] at ih ⊢; exact ih

theorem dlProgress_mono {p q : Nat} (h : p ≤ q) : dlProgress p ≤ dlProgress q := by
  unfold dlProgress
  have : (p + 2) / 4 ≤ (q + 2) / 4 := Nat.div_le_div_right (Nat.add_le_add_right h 2)
  omega

theorem dlProgress_lb (p : Nat) : 45 ≤ dlProgress p := by
  unfold dlProgress; omega

theorem dlProgress_ub {p : Nat} (h : p ≤ 100) : dlProgress p ≤ 70 := by
  unfold dlProgress; omega

/-- Glue a bounded non-decreasing middle section onto a fixed ascending
tail starting at 70. -/
theorem chain'_glue (rest : List Nat)
    (hrest : List.Chain' (· ≤ ·) (70 :: rest)) :
    ∀ (M : List Nat), List.Chain' (· ≤ ·) M → (∀ y ∈ M, y ≤ 70) →
    ∀ a, (∀ y ∈ M.head?, a ≤ y) → a ≤ 70 →
    List.Chain' (· ≤ ·) (a :: (M ++ 70 :: rest)) := by
  intro M
  induction M with
  | nil =>
    intro _ _ a _ ha70
    simpa using List.chain'_cons.mpr ⟨ha70, hrest⟩
  | cons m ms ih =>
    intro hM hub a ha _
    rw [List.cons_append]
    apply List.chain'_cons.mpr
    refine ⟨ha m rfl, ?_⟩
    have hM' := (List.chain'_cons'.mp hM)
    exact ih hM'.2 (fun y hy => hub y (List.mem_cons_of_mem _ hy)) m hM'.1
      (hub m (List.mem_cons_self _ _))

/-- Claim C7: within one run the recorded/emitted progress sequence is
non-decreasing (given a non-decreasing provider percentage within 0–100):
the fixed checkpoints are increasing and the download interpolation
`round(45 + p·0.25)` stays within `[45,70]` and preserves monotonicity. -/
theorem updateProgress_monotone (env : PipelineEnv) (session : UpdateSession)
    (historyId : String) (st : SystemState) (server : Server)
    (bid dsid : String)
    (hsrv : findServer st session.serverId = some server)
    (hstop : env.stopResult = .ok ())
    (hbak : env.backupResult = .ok bid)
    (hwipe : env.wipeResult = .ok ())
    (hdl : env.startDownloadResult = .ok dsid)
    (hwait : env.waitResult = .ok ())
    (hstart : env.startResult = .ok ())
    (hjar : pathExistsFS env.downloadFiles
      (server.serverPath ++ ["Server", "HytaleServer.jar"]) = true)
    (hev : st.events = [])
    (hticks : List.Chain' (· ≤ ·) env.downloadTicks)
    (hbound : ∀ p ∈ env.downloadTicks, p ≤ 100) :
    List.Chain' (· ≤ ·)
      (progressValues (executeUpdatePipeline env session historyId st).events) ∧
    (∀ p q, p ≤ q → dlProgress p ≤ dlProgress q) ∧
    (∀ p, 45 ≤ dlProgress p ∧ (p ≤ 100 → dlProgress p ≤ 70)) := by
  obtain ⟨-, hevents, -⟩ := pipeline_success_state env session historyId st server
    bid dsid hsrv hstop hbak hwipe hdl hwait hstart hjar
  refine ⟨?_, fun p q h => dlProgress_mono h, fun p => ⟨dlProgress_lb p, fun h => dlProgress_ub h⟩⟩
  rw [hevents, hev, List.nil_append]
  have hMchain : List.Chain' (· ≤ ·) (env.downloadTicks.map dlProgress) :=
    (List.chain'_map _).mpr (hticks.imp fun _ _ h => dlProgress_mono h)
  have hMub : ∀ y ∈ env.downloadTicks.map dlProgress, y ≤ 70 := by
    intro y hy
    obtain ⟨p, hp, rfl⟩ := List.mem_map.mp hy
    exact dlProgress_ub (hbound p hp)
  have hMhd : ∀ y ∈ (env.downloadTicks.map dlProgress).head?, (45 : Nat) ≤ y := by
    intro y hy
    have : y ∈ env.downloadTicks.map dlProgress := List.mem_of_mem_head? hy
    obtain ⟨p, _, rfl⟩ := List.mem_map.mp this
    exact dlProgress_lb p
  cases hwr : session.wasRunning
  case false =>
    have htrace : progressValues (successEvents session.sessionId false env.downloadTicks) =
        15 :: 30 :: 45 :: (env.downloadTicks.map dlProgress ++ 70 :: [80, 100]) := by
      simp only [successEvents, progressValues_append, progressValues_map_progress,
        progressValues_cons_progress, progressValues_cons_completed, progressValues_nil,
        if_false, if_true, Bool.false_eq_true, List.append_assoc, List.cons_append,
        List.nil_append, List.append_nil]
    rw [htrace]
    refine List.chain'_cons.mpr ⟨by omega, ?_⟩
    refine List.chain'_cons.mpr ⟨by omega, ?_⟩
    exact chain'_glue [80, 100] (by simp [List.chain'_cons]) _ hMchain hMub 45 hMhd (by omega)
  case true =>
    have htrace : progressValues (successEvents session.sessionId true env.downloadTicks) =
        5 :: 15 :: 30 :: 45 :: (env.downloadTicks.map dlProgress ++ 70 :: [80, 90, 100]) := by
      simp only [successEvents, progressValues_append, progressValues_map_progress,
        progressValues_cons_progress, progressValues_cons_completed, progressValues_nil,
        if_false, if_true, Bool.false_eq_true, List.append_assoc, List.cons_append,
        List.nil_append, List.append_nil]
    rw [htrace]
    refine List.chain'_cons.mpr ⟨by omega, ?_⟩
    refine List.chain'_cons.mpr ⟨by omega, ?_⟩
    refine List.chain'_cons.mpr ⟨by omega, ?_⟩
    exact chain'_glue [80, 90, 100] (by simp [List.chain'_cons]) _ hMchain hMub 45 hMhd (by omega)

/-! ### Claim C2: the preserve/restore round trip -/

theorem tempPreserveName_ne_Server (n : Nat) : tempPreserveName n ≠ "Server" := by
  intro h
  have hlen : (tempPreserveName n).length = "Server".length := by rw [h]
  unfold tempPreserveName at hlen
  rw [String.length_append] at hlen
  have h17 : (".update-preserve-" : String).length = 17 := rfl
  have h6 : ("Server" : String).length = 6 := rfl
  omega

theorem tailAfter_sibling {a b : String} (hab : a ≠ b) (sp r : Path) :
    tailAfter (sp ++ [a]) (sp ++ (b :: r)) = none := by
  rw [tailAfter_append_both]
  simp [tailAfter, hab]

/-- A destination below the temp directory never shadows a key below the
`Server` directory (the two are distinct children of the server path). -/
theorem under_T_not_over_sd {sp : Path} {tmp : String} (htmp : tmp ≠ "Server")
    (v r : Path) :
    tailAfter ((sp ++ [tmp]) ++ v) (sp ++ ("Server" :: r)) = none :=
  tailAfter_of_extended (tailAfter_sibling htmp sp r)

/-- A destination below the `Server` directory never shadows a key below
the temp directory. -/
theorem under_sd_not_over_T {sp : Path} {tmp : String} (htmp : tmp ≠ "Server")
    (v r : Path) :
    tailAfter ((sp ++ ["Server"]) ++ v) (sp ++ (tmp :: r)) = none :=
  tailAfter_of_extended (tailAfter_sibling (fun h => htmp h.symm) sp r)

theorem cons_path (sp : Path) (a : String) (r : Path) :
    (sp ++ [a]) ++ r = sp ++ (a :: r) := by
  rw [List.append_assoc]; rfl

/-- The three preserved directories of the preserve/restore loops, as the
mapped step list. -/
def preservedDirNames : List Path := [["mods"], ["universe"], ["logs"]]

theorem dirSteps_dst_not_configs (sp : Path) (tmp : String) (rel : Path) :
    ∀ s ∈ (preservedDirNames.map fun d =>
        ((sp ++ ["Server"]) ++ d, (sp ++ [tmp]) ++ d)),
      tailAfter s.2 (((sp ++ [tmp]) ++ ["configs"]) ++ rel) = none := by
  intro s hs
  have key : ((sp ++ [tmp]) ++ ["configs"]) ++ rel = (sp ++ [tmp]) ++ ("configs" :: rel) := by
    rw [List.append_assoc]; rfl
  simp only [preservedDirNames, List.map_cons, List.map_nil, List.mem_cons,
    List.not_mem_nil, or_false] at hs
  rcases hs with rfl | rfl | rfl <;>
  · rw [key, tailAfter_append_both]
    simp [tailAfter]

theorem preserve_sets_config {fs0 : FS} {sp : Path} {now : Nat} {rel : Path} {c : String}
    (hrel : rel ≠ []) (hjson : isJsonFile (rel.getLastD "") = true)
    (hlook : lookupFS fs0 ((sp ++ ["Server"]) ++ rel) = some c) :
    lookupFS (preserveFiles fs0 sp now (identifyPreservedPaths true fs0 sp)).2
      (((sp ++ [tempPreserveName now]) ++ ["configs"]) ++ rel) = some c ∧
    lookupFS (preserveFiles fs0 sp now (identifyPreservedPaths true fs0 sp)).2
      ((sp ++ ["Server"]) ++ rel) = some c := by
  have htmp : tempPreserveName now ≠ "Server" := tempPreserveName_ne_Server now
  have hsplit : (preserveFiles fs0 sp now (identifyPreservedPaths true fs0 sp)).2 =
      copySteps (copySteps fs0 ((identifyPreservedPaths true fs0 sp).configs.map
          fun cc => ((sp ++ ["Server"]) ++ cc,
            ((sp ++ [tempPreserveName now]) ++ ["configs"]) ++ cc)))
        (preservedDirNames.map fun d =>
          ((sp ++ ["Server"]) ++ d, (sp ++ [tempPreserveName now]) ++ d)) := by
    rw [← copySteps_append]
    rfl
  rw [hsplit]
  have hmem : rel ∈ (identifyPreservedPaths true fs0 sp).configs :=
    mem_findFilesRecursive hlook hrel hjson
  have hdisjA : tailAfter ((sp ++ [tempPreserveName now]) ++ ["configs"])
      ((sp ++ ["Server"]) ++ (rel ++ [])) = none := by
    rw [List.append_nil, cons_path sp "Server" rel]
    exact under_T_not_over_sd htmp _ _
  have hsrcA : lookupFS fs0 ((sp ++ ["Server"]) ++ (rel ++ [])) = some c := by
    rw [List.append_nil]; exact hlook
  have hstepA := copySteps_mapped_sets ((identifyPreservedPaths true fs0 sp).configs) fs0
    hdisjA hsrcA (Or.inl hmem)
  rw [List.append_nil] at hstepA
  constructor
  · rw [copySteps_lookup_not_under _ _ (dirSteps_dst_not_configs sp _ rel)]
    exact hstepA.2
  · have hnot : ∀ s ∈ (preservedDirNames.map fun d =>
        ((sp ++ ["Server"]) ++ d, (sp ++ [tempPreserveName now]) ++ d)),
        tailAfter s.2 ((sp ++ ["Server"]) ++ rel) = none := by
      intro s hs
      simp only [preservedDirNames, List.map_cons, List.map_nil, List.mem_cons,
        List.not_mem_nil, or_false] at hs
      rcases hs with rfl | rfl | rfl <;>
      · rw [cons_path sp "Server" rel]
        exact under_T_not_over_sd htmp _ _
    rw [copySteps_lookup_not_under _ _ hnot]
    exact hstepA.1

theorem preserve_sets_dir {fs0 : FS} {sp : Path} {now : Nat} {d : String}
    (hd : d = "mods" ∨ d = "universe" ∨ d = "logs") {q : Path} {c : String}
    (hlook : lookupFS fs0 ((sp ++ ["Server"]) ++ (d :: q)) = some c) :
    lookupFS (preserveFiles fs0 sp now (identifyPreservedPaths true fs0 sp)).2
      ((sp ++ [tempPreserveName now]) ++ (d :: q)) = some c ∧
    lookupFS (preserveFiles fs0 sp now (identifyPreservedPaths true fs0 sp)).2
      ((sp ++ ["Server"]) ++ (d :: q)) = some c := by
  have htmp : tempPreserveName now ≠ "Server" := tempPreserveName_ne_Server now
  have hsplit : (preserveFiles fs0 sp now (identifyPreservedPaths true fs0 sp)).2 =
      copySteps (copySteps fs0 ((identifyPreservedPaths true fs0 sp).configs.map
          fun cc => ((sp ++ ["Server"]) ++ cc,
            ((sp ++ [tempPreserveName now]) ++ ["configs"]) ++ cc)))
        (preservedDirNames.map fun dd =>
          ((sp ++ ["Server"]) ++ dd, (sp ++ [tempPreserveName now]) ++ dd)) := by
    rw [← copySteps_append]
    rfl
  rw [hsplit]
  -- the config copies do not disturb keys below the Server directory
  have hcfg : lookupFS (copySteps fs0 ((identifyPreservedPaths true fs0 sp).configs.map
      fun cc => ((sp ++ ["Server"]) ++ cc,
        ((sp ++ [tempPreserveName now]) ++ ["configs"]) ++ cc)))
      ((sp ++ ["Server"]) ++ (d :: q)) = some c := by
    rw [copySteps_lookup_not_under]
    · exact hlook
    · intro s hs
      obtain ⟨cc, _, rfl⟩ := List.mem_map.mp hs
      rw [cons_path sp "Server" (d :: q)]
      have := @under_T_not_over_sd sp _ htmp (["configs"] ++ cc) (d :: q)
      rw [← List.append_assoc] at this
      exact this
  have hdisjB : tailAfter (sp ++ [tempPreserveName now])
      ((sp ++ ["Server"]) ++ ([d] ++ q)) = none := by
    rw [show (sp ++ ["Server"]) ++ ([d] ++ q) = sp ++ ("Server" :: ([d] ++ q)) from
      cons_path sp "Server" _]
    have := @under_T_not_over_sd sp _ htmp [] ([d] ++ q)
    rw [List.append_nil] at this
    exact this
  have hsrcB : lookupFS (copySteps fs0 ((identifyPreservedPaths true fs0 sp).configs.map
      fun cc => ((sp ++ ["Server"]) ++ cc,
        ((sp ++ [tempPreserveName now]) ++ ["configs"]) ++ cc)))
      ((sp ++ ["Server"]) ++ ([d] ++ q)) = some c := by
    rw [show ([d] ++ q : Path) = d :: q from rfl]
    exact hcfg
  have hmemB : ([d] : Path) ∈ preservedDirNames := by
    rcases hd with rfl | rfl | rfl <;> simp [preservedDirNames]
  have hstepB := copySteps_mapped_sets preservedDirNames _ hdisjB hsrcB (Or.inl hmemB)
  constructor
  · have := hstepB.2
    rw [show ([d] ++ q : Path) = d :: q from rfl] at this
    exact this
  · have := hstepB.1
    rw [show ([d] ++ q : Path) = d :: q from rfl] at this
    exact this

theorem lookup_T_survives_download {fsP : FS} {sp : Path} {tmp : String}
    (htmp : tmp ≠ "Server") {newFiles : FS}
    (hnew : ∀ e ∈ newFiles, (tailAfter (sp ++ ["Server"]) e.1).isSome = true)
    {r : Path} {c : String}
    (h : lookupFS fsP ((sp ++ [tmp]) ++ r) = some c) (wiped : Bool) :
    lookupFS (newFiles ++ (if wiped then wipeChildren fsP (sp ++ ["Server"]) else fsP))
      ((sp ++ [tmp]) ++ r) = some c := by
  have hsdT : tailAfter (sp ++ ["Server"]) (sp ++ (tmp :: r)) = none := by
    have := @under_sd_not_over_T sp _ htmp [] r
    rw [List.append_nil] at this
    exact this
  have hnf : ∀ e ∈ newFiles, e.1 ≠ (sp ++ [tmp]) ++ r := by
    intro e he heq
    have hs := hnew e he
    rw [heq, cons_path, hsdT] at hs
    cases hs
  rw [lookupFS_append_of_not_mem hnf]
  cases wiped with
  | false => simpa using h
  | true =>
    simp only [if_true]
    rw [wipeChildren_lookup_not_under (by rw [cons_path]; exact hsdT)]
    exact h

theorem restore_split (fsD : FS) (sp : Path) (tmp : String) :
    restorePreservedFiles fsD (sp ++ [tmp]) sp =
      removeTree
        (copySteps
          (copySteps fsD
            (if pathExistsFS fsD ((sp ++ [tmp]) ++ ["configs"]) = true then
              (findFilesRecursive fsD ((sp ++ [tmp]) ++ ["configs"]) isJsonFile).map
                fun f => (((sp ++ [tmp]) ++ ["configs"]) ++ f, (sp ++ ["Server"]) ++ f)
            else []))
          (preservedDirNames.map fun d =>
            ((sp ++ [tmp]) ++ d, (sp ++ ["Server"]) ++ d)))
        (sp ++ [tmp]) := by
  rw [← copySteps_append]
  rfl

theorem restore_no_temp (fsD : FS) (tempPath sp : Path) :
    ∀ e ∈ restorePreservedFiles fsD tempPath sp, tailAfter tempPath e.1 = none := by
  intro e he
  exact removeTree_no_entry _ _ e he

theorem restore_sets_dir {fsD : FS} {sp : Path} {tmp : String}
    (htmp : tmp ≠ "Server") {d : String}
    (hd : d = "mods" ∨ d = "universe" ∨ d = "logs") {q : Path} {c : String}
    (hT : lookupFS fsD ((sp ++ [tmp]) ++ (d :: q)) = some c) :
    lookupFS (restorePreservedFiles fsD (sp ++ [tmp]) sp)
      ((sp ++ ["Server"]) ++ (d :: q)) = some c := by
  rw [restore_split]
  have hroot : tailAfter (sp ++ [tmp]) ((sp ++ ["Server"]) ++ (d :: q)) = none := by
    rw [cons_path sp "Server" (d :: q)]
    have := @under_T_not_over_sd sp _ htmp [] (d :: q)
    rw [List.append_nil] at this
    exact this
  rw [removeTree_lookup_not_under hroot]
  have hcfg : lookupFS (copySteps fsD
      (if pathExistsFS fsD ((sp ++ [tmp]) ++ ["configs"]) = true then
        (findFilesRecursive fsD ((sp ++ [tmp]) ++ ["configs"]) isJsonFile).map
          fun f => (((sp ++ [tmp]) ++ ["configs"]) ++ f, (sp ++ ["Server"]) ++ f)
      else []))
      ((sp ++ [tmp]) ++ (d :: q)) = some c := by
    by_cases hg : pathExistsFS fsD ((sp ++ [tmp]) ++ ["configs"]) = true
    · rw [if_pos hg, copySteps_lookup_not_under]
      · exact hT
      · intro s hs
        obtain ⟨f, _, rfl⟩ := List.mem_map.mp hs
        rw [cons_path sp tmp (d :: q)]
        exact under_sd_not_over_T htmp f (d :: q)
    · rw [if_neg hg, copySteps_nil]
      exact hT
  have hdisj : tailAfter (sp ++ ["Server"]) ((sp ++ [tmp]) ++ ([d] ++ q)) = none := by
    rw [show ([d] ++ q : Path) = d :: q from rfl, cons_path sp tmp (d :: q)]
    have := @under_sd_not_over_T sp _ htmp [] (d :: q)
    rw [List.append_nil] at this
    exact this
  have hsrc : lookupFS (copySteps fsD
      (if pathExistsFS fsD ((sp ++ [tmp]) ++ ["configs"]) = true then
        (findFilesRecursive fsD ((sp ++ [tmp]) ++ ["configs"]) isJsonFile).map
          fun f => (((sp ++ [tmp]) ++ ["configs"]) ++ f, (sp ++ ["Server"]) ++ f)
      else []))
      ((sp ++ [tmp]) ++ ([d] ++ q)) = some c := by
    rw [show ([d] ++ q : Path) = d :: q from rfl]
    exact hcfg
  have hmem : ([d] : Path) ∈ preservedDirNames := by
    rcases hd with rfl | rfl | rfl <;> simp [preservedDirNames]
  have hstep := copySteps_mapped_sets preservedDirNames _ hdisj hsrc (Or.inl hmem)
  have := hstep.2
  rw [show ([d] ++ q : Path) = d :: q from rfl] at this
  exact this

theorem restore_sets_config {fsD : FS} {sp : Path} {tmp : String}
    (htmp : tmp ≠ "Server") {rel : Path} {c : String}
    (hrel : rel ≠ []) (hjson : isJsonFile (rel.getLastD "") = true)
    (hnd : ∀ dd ∈ (["mods", "universe", "logs"] : List String), tailAfter [dd] rel = none)
    (hT : lookupFS fsD (((sp ++ [tmp]) ++ ["configs"]) ++ rel) = some c) :
    lookupFS (restorePreservedFiles fsD (sp ++ [tmp]) sp)
      ((sp ++ ["Server"]) ++ rel) = some c := by
  rw [restore_split]
  have hroot : tailAfter (sp ++ [tmp]) ((sp ++ ["Server"]) ++ rel) = none := by
    rw [cons_path sp "Server" rel]
    have := @under_T_not_over_sd sp _ htmp [] rel
    rw [List.append_nil] at this
    exact this
  rw [removeTree_lookup_not_under hroot]
  have hg : pathExistsFS fsD ((sp ++ [tmp]) ++ ["configs"]) = true :=
    pathExistsFS_of_lookup hT
  rw [if_pos hg]
  have hmem : rel ∈ findFilesRecursive fsD ((sp ++ [tmp]) ++ ["configs"]) isJsonFile :=
    mem_findFilesRecursive hT hrel hjson
  have hdisj : tailAfter (sp ++ ["Server"])
      (((sp ++ [tmp]) ++ ["configs"]) ++ (rel ++ [])) = none := by
    rw [List.append_nil]
    have heq : ((sp ++ [tmp]) ++ ["configs"]) ++ rel = sp ++ (tmp :: "configs" :: rel) := by
      rw [List.append_assoc (sp ++ [tmp]) ["configs"] rel]
      exact cons_path sp tmp ("configs" :: rel)
    rw [heq]
    have := @under_sd_not_over_T sp _ htmp [] ("configs" :: rel)
    rw [List.append_nil] at this
    exact this
  have hsrc : lookupFS fsD (((sp ++ [tmp]) ++ ["configs"]) ++ (rel ++ [])) = some c := by
    rw [List.append_nil]
    exact hT
  have hstep := copySteps_mapped_sets
    (findFilesRecursive fsD ((sp ++ [tmp]) ++ ["configs"]) isJsonFile) fsD
    hdisj hsrc (Or.inl hmem)
  rw [List.append_nil] at hstep
  have hnot : ∀ s ∈ (preservedDirNames.map fun d =>
      ((sp ++ [tmp]) ++ d, (sp ++ ["Server"]) ++ d)),
      tailAfter s.2 ((sp ++ ["Server"]) ++ rel) = none := by
    intro s hs
    simp only [preservedDirNames, List.map_cons, List.map_nil, List.mem_cons,
      List.not_mem_nil, or_false] at hs
    rcases hs with rfl | rfl | rfl <;>
    · rw [tailAfter_append_both]
      first
      | exact hnd "mods" (by simp)
      | exact hnd "universe" (by simp)
      | exact hnd "logs" (by simp)
  rw [copySteps_lookup_not_under _ _ hnot]
  exact hstep.2

/-- Claim C2 (amended): on every update run that reaches `completed` and
whose config scan succeeded (`hscan`; a scan failure is caught, logged and
degrades to preserving no config files, which are then lost — see the
counterexample), each config file (`.json`, case-insensitive) under the
installation subtree and the full contents of the mods/universe/logs
directories that existed before the update are present with identical
content afterwards, no matter what the download placed at those paths,
and the temp preserve directory is deleted.  `hnew` says the download
writes (only) below the installation subtree `Server/`. -/
theorem update_preserves_user_data (env : PipelineEnv) (session : UpdateSession)
    (historyId : String) (st : SystemState) (server : Server) (bid dsid : String)
    (hsrv : findServer st session.serverId = some server)
    (hstop : env.stopResult = .ok ())
    (hbak : env.backupResult = .ok bid)
    (hwipe : env.wipeResult = .ok ())
    (hdl : env.startDownloadResult = .ok dsid)
    (hwait : env.waitResult = .ok ())
    (hstart : env.startResult = .ok ())
    (hjar : pathExistsFS env.downloadFiles
      (server.serverPath ++ ["Server", "HytaleServer.jar"]) = true)
    (hscan : env.configScanOk = true)
    (hnew : ∀ e ∈ env.downloadFiles,
      (tailAfter (server.serverPath ++ ["Server"]) e.1).isSome = true) :
    (∃ s', lookupAssoc (executeUpdatePipeline env session historyId st).sessions
        session.sessionId = some s' ∧ s'.status = UpdateStatus.completed) ∧
    (∀ rel c, rel ≠ [] → isJsonFile (rel.getLastD "") = true →
      lookupFS st.fs ((server.serverPath ++ ["Server"]) ++ rel) = some c →
      lookupFS (executeUpdatePipeline env session historyId st).fs
        ((server.serverPath ++ ["Server"]) ++ rel) = some c) ∧
    (∀ d, (d = "mods" ∨ d = "universe" ∨ d = "logs") → ∀ q c,
      lookupFS st.fs ((server.serverPath ++ ["Server"]) ++ (d :: q)) = some c →
      lookupFS (executeUpdatePipeline env session historyId st).fs
        ((server.serverPath ++ ["Server"]) ++ (d :: q)) = some c) ∧
    (∀ e ∈ (executeUpdatePipeline env session historyId st).fs,
      tailAfter (server.serverPath ++ [tempPreserveName env.now]) e.1 = none) := by
  obtain ⟨hfs, -, hsess⟩ := pipeline_success_state env session historyId st server
    bid dsid hsrv hstop hbak hwipe hdl hwait hstart hjar
  rw [hscan] at hfs
  have htmp := tempPreserveName_ne_Server env.now
  refine ⟨?_, ?_, ?_, ?_⟩
  · obtain ⟨s', h1, h2, -⟩ := hsess
    exact ⟨s', h1, h2⟩
  · intro rel c hrel hjson hlook
    rw [hfs]
    have hpres := @preserve_sets_config _ _ env.now _ _ hrel hjson hlook
    have hguard : pathExistsFS (preserveFiles st.fs server.serverPath env.now
        (identifyPreservedPaths true st.fs server.serverPath)).2
        (server.serverPath ++ ["Server"]) = true :=
      pathExistsFS_of_lookup hpres.2
    rw [if_pos hguard]
    rcases rel with _ | ⟨r0, rest⟩
    · exact absurd rfl hrel
    by_cases hr0 : r0 = "mods" ∨ r0 = "universe" ∨ r0 = "logs"
    · have hpresd := @preserve_sets_dir _ _ env.now _ hr0 _ _ hlook
      have hsurv := lookup_T_survives_download htmp hnew hpresd.1 true
      simp only [eq_self_iff_true, if_true] at hsurv
      exact restore_sets_dir htmp hr0 hsurv
    · have hT1 := hpres.1
      have hkey : ((server.serverPath ++ [tempPreserveName env.now]) ++ ["configs"]) ++
          (r0 :: rest) = (server.serverPath ++ [tempPreserveName env.now]) ++
          ("configs" :: r0 :: rest) := by
        rw [List.append_assoc]; rfl
      rw [hkey] at hT1
      have hsurv := lookup_T_survives_download htmp hnew hT1 true
      simp only [eq_self_iff_true, if_true] at hsurv
      rw [← hkey] at hsurv
      have hnd : ∀ dd ∈ (["mods", "universe", "logs"] : List String),
          tailAfter [dd] (r0 :: rest) = none := by
        intro dd hdd
        have hne : dd ≠ r0 := by
          rintro rfl
          exact hr0 (by simpa using hdd)
        simp [tailAfter, hne]
      exact restore_sets_config htmp hrel hjson hnd hsurv
  · intro d hd q c hlook
    rw [hfs]
    have hpresd := @preserve_sets_dir _ _ env.now _ hd _ _ hlook
    have hguard : pathExistsFS (preserveFiles st.fs server.serverPath env.now
        (identifyPreservedPaths true st.fs server.serverPath)).2
        (server.serverPath ++ ["Server"]) = true :=
      pathExistsFS_of_lookup hpresd.2
    rw [if_pos hguard]
    have hsurv := lookup_T_survives_download htmp hnew hpresd.1 true
    simp only [eq_self_iff_true, if_true] at hsurv
    exact restore_sets_dir htmp hd hsurv
  · intro e he
    rw [hfs] at he
    exact restore_no_temp _ _ _ e he

/-! ### Claim C9: `wasRunning = false` never touches the Process Controller -/

/-- A call into the Process Controller's stop or start operation. -/
def isStopStartCall : ExtCall → Bool
  | ExtCall.stopServer _ => true
  | ExtCall.startServer _ => true
  | _ => false

/-- An `update:progress` event witnessing the `stopping`/`starting` states
or their checkpoints 5 and 90. -/
def isStopStartEvent : Event → Bool
  | Event.progress _ UpdateStatus.stopping _ => true
  | Event.progress _ UpdateStatus.starting _ => true
  | Event.progress _ _ p => p == 5 || p == 90
  | _ => false

@[simp] theorem failureHandler_calls (env : PipelineEnv) (sess : UpdateSession)
    (hid msg : String) (tmp : Option Path) (st : SystemState) :
    (failureHandler env sess hid msg tmp st).calls =
      st.calls ++ [ExtCall.notify "server_update_failed"] := by
  unfold failureHandler
  cases tmp with
  | none => rfl
  | some t =>
    cases hok : env.cleanupOk
    · simp [hok]
    · simp [hok]

@[simp] theorem failureHandler_events (env : PipelineEnv) (sess : UpdateSession)
    (hid msg : String) (tmp : Option Path) (st : SystemState) :
    (failureHandler env sess hid msg tmp st).events =
      st.events ++ [Event.failed sess.sessionId msg] := by
  unfold failureHandler
  cases tmp with
  | none => rfl
  | some t =>
    cases hok : env.cleanupOk
    · simp [hok]
    · simp [hok]

theorem mem_append_good {α : Type} (P : α → Bool) {l₁ l₂ : List α}
    (h₁ : ∀ a ∈ l₁, P a = false) (h₂ : ∀ a ∈ l₂, P a = false) :
    ∀ a ∈ l₁ ++ l₂, P a = false := by
  intro a ha
  rcases List.mem_append.mp ha with h | h
  · exact h₁ a h
  · exact h₂ a h

theorem mem_cons_good {α : Type} (P : α → Bool) {a : α} {l : List α}
    (ha : P a = false) (hl : ∀ b ∈ l, P b = false) :
    ∀ b ∈ a :: l, P b = false := by
  intro b hb
  rcases List.mem_cons.mp hb with rfl | h
  · exact ha
  · exact hl b h

/-- The state invariant claim C9 tracks: no stop/start Process Controller
call in the log, and no stop/start-flavoured progress event. -/
def noStopStart (st : SystemState) : Prop :=
  (∀ c ∈ st.calls, isStopStartCall c = false) ∧
  (∀ e ∈ st.events, isStopStartEvent e = false)

theorem noStopStart_of_eq {st st' : SystemState} (h : noStopStart st)
    (hc : st'.calls = st.calls) (he : st'.events = st.events) :
    noStopStart st' := by
  obtain ⟨h1, h2⟩ := h
  constructor
  · intro c hcm
    rw [hc] at hcm
    exact h1 c hcm
  · intro e hem
    rw [he] at hem
    exact h2 e hem

theorem noStopStart_extend {st st' : SystemState} (h : noStopStart st)
    (cs : List ExtCall) (es : List Event)
    (hc : st'.calls = st.calls ++ cs) (he : st'.events = st.events ++ es)
    (hcs : ∀ c ∈ cs, isStopStartCall c = false)
    (hes : ∀ e ∈ es, isStopStartEvent e = false) : noStopStart st' := by
  obtain ⟨h1, h2⟩ := h
  constructor
  · intro c hcm
    rw [hc] at hcm
    exact mem_append_good _ h1 hcs c hcm
  · intro e hem
    rw [he] at hem
    exact mem_append_good _ h2 hes e hem

theorem noStopStart_extend_calls {st st' : SystemState} (h : noStopStart st)
    (cs : List ExtCall)
    (hc : st'.calls = st.calls ++ cs) (he : st'.events = st.events)
    (hcs : ∀ c ∈ cs, isStopStartCall c = false) : noStopStart st' := by
  obtain ⟨h1, h2⟩ := h
  constructor
  · intro c hcm
    rw [hc] at hcm
    exact mem_append_good _ h1 hcs c hcm
  · intro e hem
    rw [he] at hem
    exact h2 e hem

theorem noStopStart_extend_events {st st' : SystemState} (h : noStopStart st)
    (es : List Event)
    (hc : st'.calls = st.calls) (he : st'.events = st.events ++ es)
    (hes : ∀ e ∈ es, isStopStartEvent e = false) : noStopStart st' := by
  obtain ⟨h1, h2⟩ := h
  constructor
  · intro c hcm
    rw [hc] at hcm
    exact h1 c hcm
  · intro e hem
    rw [he] at hem
    exact mem_append_good _ h2 hes e hem

/-- A download-interpolation progress event stays inside `[45,70]`, so it
is never a checkpoint 5/90 event. -/
theorem dlTick_not_stopStart {p : Nat} (hp : p ≤ 100) (sid : String) :
    isStopStartEvent
      (Event.progress sid UpdateStatus.downloading (dlProgress p)) = false := by
  have h45 := dlProgress_lb p
  have h70 := dlProgress_ub hp
  simp only [isStopStartEvent, Bool.or_eq_false_iff, beq_eq_false_iff_ne, ne_eq]
  omega

/-- With `wasRunning = false` step 1 is a no-op. -/
theorem stageStop_skip (env : PipelineEnv) (historyId : String) (st : SystemState)
    (session : UpdateSession) (hwr : session.wasRunning = false) :
    stageStop env historyId st session = .ok (st, session) := by
  simp [stageStop, hwr]

/-- With `wasRunning = false` step 8 is a no-op. -/
theorem stageStart_skip (env : PipelineEnv) (historyId : String) (st : SystemState)
    (session : UpdateSession) (hwr : session.wasRunning = false) :
    stageStart env historyId st session = .ok (st, session) := by
  simp [stageStart, hwr]

theorem stageBackup_noSS (env : PipelineEnv) (historyId : String)
    (st : SystemState) (session : UpdateSession) (h : noStopStart st) :
    (∀ st' s', stageBackup env historyId st session = .ok (st', s') →
      noStopStart st' ∧ s'.wasRunning = session.wasRunning) ∧
    (∀ m stF tmp sF, stageBackup env historyId st session = .error (m, stF, tmp, sF) →
      noStopStart stF) := by
  unfold stageBackup
  rcases hbk : env.backupResult with m | bid <;> simp only [hbk]
  · refine ⟨fun st' s' heq => Except.noConfusion heq, fun m' stF tmp sF heq => ?_⟩
    injection heq with h1
    injection h1 with e1 h2
    injection h2 with e2 h3
    exact e2 ▸ noStopStart_extend h [ExtCall.createBackup session.serverId]
      [Event.progress session.sessionId UpdateStatus.backing_up 15]
      (by simp) (by simp) (by simp [isStopStartCall]) (by simp [isStopStartEvent])
  · refine ⟨fun st' s' heq => ?_, fun m' stF tmp sF heq => Except.noConfusion heq⟩
    injection heq with h1
    injection h1 with e1 e2
    refine ⟨e1 ▸ noStopStart_extend h [ExtCall.createBackup session.serverId]
      [Event.progress session.sessionId UpdateStatus.backing_up 15]
      (by simp) (by simp) (by simp [isStopStartCall]) (by simp [isStopStartEvent]), ?_⟩
    rw [← e2]
    simp

theorem stagePreserve_fst_noSS (env : PipelineEnv) (server : Server)
    (historyId : String) (st : SystemState) (session : UpdateSession)
    (h : noStopStart st) :
    noStopStart (stagePreserve env server historyId st session).1 :=
  noStopStart_extend_events h
    [Event.progress session.sessionId UpdateStatus.preserving 30,
     Event.progress session.sessionId UpdateStatus.downloading 45]
    (by simp [stagePreserve])
    (by simp [stagePreserve, List.append_assoc]) (by simp [isStopStartEvent])

theorem stagePreserve_snd_wasRunning (env : PipelineEnv) (server : Server)
    (historyId : String) (st : SystemState) (session : UpdateSession) :
    (stagePreserve env server historyId st session).2.1.wasRunning =
      session.wasRunning := by
  simp [stagePreserve]

theorem stagePreserve_snd_status (env : PipelineEnv) (server : Server)
    (historyId : String) (st : SystemState) (session : UpdateSession) :
    (stagePreserve env server historyId st session).2.1.status =
      UpdateStatus.downloading := by
  simp [stagePreserve]

theorem stageWipe_noSS (env : PipelineEnv) (server : Server) (tempPath : Path)
    (session : UpdateSession) (st : SystemState) (h : noStopStart st) :
    (∀ st', stageWipe env server tempPath session st = .ok st' → noStopStart st') ∧
    (∀ m stF tmp sF, stageWipe env server tempPath session st = .error (m, stF, tmp, sF) →
      noStopStart stF) := by
  unfold stageWipe
  cases hpe : pathExistsFS st.fs (server.serverPath ++ ["Server"]) <;> simp only [hpe]
  · refine ⟨fun st' heq => ?_, fun m stF tmp sF heq => Except.noConfusion heq⟩
    injection heq with e1
    exact e1 ▸ h
  · rcases hwp : env.wipeResult with m | u <;> simp only [hwp]
    · refine ⟨fun st' heq => Except.noConfusion heq, fun m' stF tmp sF heq => ?_⟩
      injection heq with h1
      injection h1 with e1 h2
      injection h2 with e2 h3
      exact e2 ▸ h
    · refine ⟨fun st' heq => ?_, fun m stF tmp sF heq => Except.noConfusion heq⟩
      injection heq with e1
      exact e1 ▸ noStopStart_of_eq h rfl rfl

theorem stageDownload_noSS (env : PipelineEnv) (tempPath : Path)
    (st : SystemState) (session : UpdateSession) (h : noStopStart st)
    (hticks : ∀ p ∈ env.downloadTicks, p ≤ 100)
    (hstat : session.status = UpdateStatus.downloading) :
    (∀ st' s', stageDownload env tempPath st session = .ok (st', s') →
      noStopStart st' ∧ s'.wasRunning = session.wasRunning) ∧
    (∀ m stF tmp sF, stageDownload env tempPath st session = .error (m, stF, tmp, sF) →
      noStopStart stF) := by
  have hmap : ∀ e ∈ env.downloadTicks.map
      (fun p => Event.progress session.sessionId session.status (dlProgress p)),
      isStopStartEvent e = false := by
    intro e hee
    obtain ⟨p, hp, rfl⟩ := List.mem_map.mp hee
    rw [hstat]
    exact dlTick_not_stopStart (hticks p hp) _
  unfold stageDownload
  rcases hsd : env.startDownloadResult with m | dsid <;> simp only [hsd]
  · refine ⟨fun st' s' heq => Except.noConfusion heq, fun m' stF tmp sF heq => ?_⟩
    injection heq with h1
    injection h1 with e1 h2
    injection h2 with e2 h3
    exact e2 ▸ noStopStart_extend_calls h [ExtCall.startDownload session.serverId]
      (by simp) (by simp) (by simp [isStopStartCall])
  · rcases hwt : env.waitResult with mw | uw <;> simp only [hwt]
    · refine ⟨fun st' s' heq => Except.noConfusion heq, fun m' stF tmp sF heq => ?_⟩
      injection heq with h1
      injection h1 with e1 h2
      injection h2 with e2 h3
      refine e2 ▸ noStopStart_extend h [ExtCall.startDownload session.serverId]
        (env.downloadTicks.map
          (fun p => Event.progress session.sessionId session.status (dlProgress p)))
        (by simp) (by simp) (by simp [isStopStartCall]) ?_
      exact hmap
    · refine ⟨fun st' s' heq => ?_, fun m' stF tmp sF heq => Except.noConfusion heq⟩
      injection heq with h1
      injection h1 with e1 e2
      refine ⟨e1 ▸ noStopStart_extend h [ExtCall.startDownload session.serverId]
        (env.downloadTicks.map
          (fun p => Event.progress session.sessionId session.status (dlProgress p)))
        (by simp) (by simp) (by simp [isStopStartCall]) hmap, ?_⟩
      rw [← e2]
      simp

theorem stageInstall_noSS (env : PipelineEnv) (server : Server)
    (historyId : String) (tempPath : Path) (st : SystemState)
    (session : UpdateSession) (h : noStopStart st) :
    (∀ st' s', stageInstall env server historyId tempPath st session = .ok (st', s') →
      noStopStart st' ∧ s'.wasRunning = session.wasRunning) ∧
    (∀ m stF tmp sF,
      stageInstall env server historyId tempPath st session = .error (m, stF, tmp, sF) →
      noStopStart stF) := by
  unfold stageInstall
  cases hjar : pathExistsFS (env.downloadFiles ++ st.fs)
      (server.serverPath ++ ["Server"] ++ ["HytaleServer.jar"]) <;>
    simp only [updateHistoryStatus_fs, updateSessionStatus_fst_fs, hjar]
  · refine ⟨fun st' s' heq => Except.noConfusion heq, fun m' stF tmp sF heq => ?_⟩
    injection heq with h1
    injection h1 with e1 h2
    injection h2 with e2 h3
    exact e2 ▸ noStopStart_extend_events h
      [Event.progress session.sessionId UpdateStatus.installing 70]
      (by simp) (by simp) (by simp [isStopStartEvent])
  · refine ⟨fun st' s' heq => ?_, fun m' stF tmp sF heq => Except.noConfusion heq⟩
    injection heq with h1
    injection h1 with e1 e2
    refine ⟨e1 ▸ noStopStart_extend_events h
      [Event.progress session.sessionId UpdateStatus.installing 70,
       Event.progress session.sessionId UpdateStatus.restoring 80]
      (by simp) (by simp [List.append_assoc]) (by simp [isStopStartEvent]), ?_⟩
    rw [← e2]
    simp

theorem stageComplete_noSS (env : PipelineEnv) (historyId : String)
    (st : SystemState) (session : UpdateSession) (h : noStopStart st) :
    noStopStart (stageComplete env historyId st session) :=
  noStopStart_extend h [ExtCall.notify "server_update_completed"]
    [Event.progress session.sessionId UpdateStatus.completed 100,
     Event.completed session.sessionId]
    (by simp [stageComplete])
    (by simp [stageComplete, List.append_assoc])
    (by simp [isStopStartCall]) (by simp [isStopStartEvent])

theorem failureHandler_noSS (env : PipelineEnv) (sess : UpdateSession)
    (historyId msg : String) (tmp : Option Path) (st : SystemState)
    (h : noStopStart st) :
    noStopStart (failureHandler env sess historyId msg tmp st) :=
  noStopStart_extend h [ExtCall.notify "server_update_failed"]
    [Event.failed sess.sessionId msg]
    (by simp) (by simp)
    (by simp [isStopStartCall]) (by simp [isStopStartEvent])

/-- Stage traversal: with `wasRunning = false` and in-range provider
percentages, `pipelineBody` transports `noStopStart` both to its success
state and to the state carried by any failure. -/
theorem pipelineBody_noSS (env : PipelineEnv) (server : Server)
    (session : UpdateSession) (historyId : String) (st : SystemState)
    (hwr : session.wasRunning = false)
    (hticks : ∀ p ∈ env.downloadTicks, p ≤ 100)
    (h : noStopStart st) :
    (∀ stS, pipelineBody env server session historyId st = .ok stS → noStopStart stS) ∧
    (∀ m stF tmp sF,
      pipelineBody env server session historyId st = .error (m, stF, tmp, sF) →
      noStopStart stF) := by
  unfold pipelineBody
  rw [stageStop_skip env historyId st session hwr]
  dsimp only
  obtain ⟨hok2, herr2⟩ := stageBackup_noSS env historyId st session h
  cases h2 : stageBackup env historyId st session with
  | error e =>
    obtain ⟨m2, stF2, tmp2, sF2⟩ := e
    refine ⟨fun stS heq => Except.noConfusion heq, fun m stF tmp sF heq => ?_⟩
    injection heq with h1
    injection h1 with e1 h2'
    injection h2' with e2 h3
    exact e2 ▸ herr2 m2 stF2 tmp2 sF2 h2
  | ok v =>
    obtain ⟨st2, s2⟩ := v
    obtain ⟨hg2, hwr2⟩ := hok2 st2 s2 h2
    have hg3 := stagePreserve_fst_noSS env server historyId st2 s2 hg2
    have hwr3 : (stagePreserve env server historyId st2 s2).2.1.wasRunning = false := by
      rw [stagePreserve_snd_wasRunning, hwr2, hwr]
    have hst3 := stagePreserve_snd_status env server historyId st2 s2
    dsimp only
    obtain ⟨hok4, herr4⟩ := stageWipe_noSS env server
      (stagePreserve env server historyId st2 s2).2.2
      (stagePreserve env server historyId st2 s2).2.1
      (stagePreserve env server historyId st2 s2).1 hg3
    cases h4 : stageWipe env server (stagePreserve env server historyId st2 s2).2.2
        (stagePreserve env server historyId st2 s2).2.1
        (stagePreserve env server historyId st2 s2).1 with
    | error e =>
      obtain ⟨m4, stF4, tmp4, sF4⟩ := e
      refine ⟨fun stS heq => Except.noConfusion heq, fun m stF tmp sF heq => ?_⟩
      injection heq with h1
      injection h1 with e1 h2'
      injection h2' with e2 h3
      exact e2 ▸ herr4 m4 stF4 tmp4 sF4 h4
    | ok st4 =>
      dsimp only
      have hg4 := hok4 st4 h4
      obtain ⟨hok5, herr5⟩ := stageDownload_noSS env
        (stagePreserve env server historyId st2 s2).2.2 st4
        (stagePreserve env server historyId st2 s2).2.1 hg4 hticks hst3
      cases h5 : stageDownload env (stagePreserve env server historyId st2 s2).2.2 st4
          (stagePreserve env server historyId st2 s2).2.1 with
      | error e =>
        obtain ⟨m5, stF5, tmp5, sF5⟩ := e
        refine ⟨fun stS heq => Except.noConfusion heq, fun m stF tmp sF heq => ?_⟩
        injection heq with h1
        injection h1 with e1 h2'
        injection h2' with e2 h3
        exact e2 ▸ herr5 m5 stF5 tmp5 sF5 h5
      | ok v5 =>
        obtain ⟨st5, s5⟩ := v5
        dsimp only
        obtain ⟨hg5, hwr5⟩ := hok5 st5 s5 h5
        have hwr5' : s5.wasRunning = false := by rw [hwr5, hwr3]
        obtain ⟨hok6, herr6⟩ := stageInstall_noSS env server historyId
          (stagePreserve env server historyId st2 s2).2.2 st5 s5 hg5
        cases h6 : stageInstall env server historyId
            (stagePreserve env server historyId st2 s2).2.2 st5 s5 with
        | error e =>
          obtain ⟨m6, stF6, tmp6, sF6⟩ := e
          refine ⟨fun stS heq => Except.noConfusion heq, fun m stF tmp sF heq => ?_⟩
          injection heq with h1
          injection h1 with e1 h2'
          injection h2' with e2 h3
          exact e2 ▸ herr6 m6 stF6 tmp6 sF6 h6
        | ok v6 =>
          obtain ⟨st6, s6⟩ := v6
          dsimp only
          obtain ⟨hg6, hwr6⟩ := hok6 st6 s6 h6
          have hwr6' : s6.wasRunning = false := by rw [hwr6, hwr5']
          rw [stageStart_skip env historyId st6 s6 hwr6']
          refine ⟨fun stS heq => ?_, fun m stF tmp sF heq => Except.noConfusion heq⟩
          injection heq with e1
          exact e1 ▸ stageComplete_noSS env historyId st6 s6 hg6

/-- Claim C9: a session created with `wasRunning = false` never produces a
Process Controller stop or start call, and never emits a progress event in
the `stopping` or `starting` state or with their checkpoints 5/90 (the
download interpolation stays inside `[45,70]` for provider percentages in
`[0,100]`), whether the pipeline succeeds or fails at any stage. -/
theorem pipeline_skips_stop_start (env : PipelineEnv) (session : UpdateSession)
    (historyId : String) (st : SystemState)
    (hwr : session.wasRunning = false)
    (hticks : ∀ p ∈ env.downloadTicks, p ≤ 100)
    (hc : ∀ c ∈ st.calls, isStopStartCall c = false)
    (he : ∀ e ∈ st.events, isStopStartEvent e = false) :
    (∀ c ∈ (executeUpdatePipeline env session historyId st).calls,
      isStopStartCall c = false) ∧
    (∀ e ∈ (executeUpdatePipeline env session historyId st).events,
      isStopStartEvent e = false) := by
  unfold executeUpdatePipeline
  cases hsrv : findServer st session.serverId with
  | none => exact ⟨hc, he⟩
  | some server =>
    dsimp only
    obtain ⟨hok, herr⟩ :=
      pipelineBody_noSS env server session historyId st hwr hticks ⟨hc, he⟩
    cases hbody : pipelineBody env server session historyId st with
    | ok stS => exact hok stS hbody
    | error f =>
      obtain ⟨m, stF, tmp, sF⟩ := f
      exact failureHandler_noSS env sF historyId m tmp stF (herr m stF tmp sF hbody)

/-! ### Claim C1: the failure handler and its reach -/

/-- Reducing `executeUpdatePipeline` on a failing body: the catch block
runs on the throw-time state. -/
theorem executeUpdatePipeline_err (env : PipelineEnv) (session : UpdateSession)
    (historyId : String) (st : SystemState) (server : Server) (m : String)
    (stF : SystemState) (tmp : Option Path) (sF : UpdateSession)
    (hsrv : findServer st session.serverId = some server)
    (hbody : pipelineBody env server session historyId st = .error (m, stF, tmp, sF)) :
    executeUpdatePipeline env session historyId st =
      failureHandler env sF historyId m tmp stF := by
  unfold executeUpdatePipeline
  rw [hsrv]
  dsimp only
  rw [hbody]

/-- Reducing `executeUpdatePipeline` when the initial server lookup fails:
the rejection is swallowed and nothing happens. -/
theorem executeUpdatePipeline_noServer (env : PipelineEnv)
    (session : UpdateSession) (historyId : String) (st : SystemState)
    (hsrv : findServer st session.serverId = none) :
    executeUpdatePipeline env session historyId st = st := by
  unfold executeUpdatePipeline
  rw [hsrv]

theorem map_ite_prop {α : Type} (key : α → String) (f : α → α) (l : List α)
    (i : String) (P : α → Prop) (hP : ∀ x, P (f x)) :
    ∀ y ∈ l.map (fun x => if key x == i then f x else x), key y = i → P y := by
  intro y hy hkey
  obtain ⟨x, hx, rfl⟩ := List.mem_map.mp hy
  cases hc : key x == i
  · rw [hc] at hkey
    have hred : (if false = true then f x else x) = x := by simp
    rw [hred] at hkey
    exact absurd hkey (by simpa using hc)
  · have hred : (if true = true then f x else x) = f x := by simp
    rw [hred]
    exact hP x

theorem map_ite_exists {α : Type} (key : α → String) (f : α → α) (l : List α)
    (i : String) (P : α → Prop) (hP : ∀ x, P (f x))
    (hid : ∀ x, key (f x) = key x)
    (hx : ∃ x ∈ l, key x = i) :
    ∃ y ∈ l.map (fun x => if key x == i then f x else x), key y = i ∧ P y := by
  obtain ⟨x, hxl, hkey⟩ := hx
  refine ⟨f x, ?_, by rw [hid, hkey], hP x⟩
  have : (if key x == i then f x else x) = f x := by simp [hkey]
  exact this ▸ List.mem_map_of_mem _ hxl

/-- The session map after the failure handler: the in-scope session is
stored back marked `failed` with the original message. -/
theorem failureHandler_sessions (env : PipelineEnv) (sess : UpdateSession)
    (hid msg : String) (tmp : Option Path) (st : SystemState) :
    (failureHandler env sess hid msg tmp st).sessions =
      setAssoc st.sessions sess.sessionId
        { sess with status := UpdateStatus.failed, error := some msg } := by
  unfold failureHandler
  cases tmp with
  | none => rfl
  | some t => cases hok : env.cleanupOk <;> simp [hok, updateHistoryStatus, updateHistory]

/-- The history list after the failure handler, as a map. -/
theorem failureHandler_history (env : PipelineEnv) (sess : UpdateSession)
    (hid msg : String) (tmp : Option Path) (st : SystemState) :
    (failureHandler env sess hid msg tmp st).history =
      st.history.map fun h =>
        if h.id == hid then { h with status := "failed", error := some msg } else h := by
  unfold failureHandler
  cases tmp with
  | none => simp [updateHistoryStatus, updateHistory]
  | some t => cases hok : env.cleanupOk <;>
      simp [hok, updateHistoryStatus, updateHistory]

/-- The server list after the failure handler, as a map. -/
theorem failureHandler_servers (env : PipelineEnv) (sess : UpdateSession)
    (hid msg : String) (tmp : Option Path) (st : SystemState) :
    (failureHandler env sess hid msg tmp st).servers =
      st.servers.map fun s =>
        if s.id == sess.serverId then { s with updateInProgress := false } else s := by
  unfold failureHandler
  cases tmp with
  | none => simp [updateHistoryStatus, updateHistory, updateServer]
  | some t => cases hok : env.cleanupOk <;>
      simp [hok, updateHistoryStatus, updateHistory, updateServer]

/-- A successful best-effort cleanup removes the temp preserve tree. -/
theorem failureHandler_fs_cleanup (env : PipelineEnv) (sess : UpdateSession)
    (hid msg : String) (t : Path) (st : SystemState)
    (hok : env.cleanupOk = true) :
    (failureHandler env sess hid msg (some t) st).fs = removeTree st.fs t := by
  unfold failureHandler
  simp [hok, updateHistoryStatus, updateHistory, updateServer]

theorem pathExistsFS_removeTree_self (fs : FS) (t : Path) :
    pathExistsFS (removeTree fs t) t = false := by
  rw [pathExistsFS]
  rw [List.any_eq_false]
  intro e he
  rw [removeTree_no_entry fs t e he]
  simp

/-- The list of history-record ids; every pipeline stage maps history
records in place, so this list is invariant. -/
def histIds (st : SystemState) : List String := st.history.map fun h => h.id

@[simp] theorem histIds_def (st : SystemState) :
    histIds st = st.history.map fun h => h.id := rfl

@[simp] theorem updateHistory_map_id (st : SystemState) (i : String)
    (f : HistoryRecord → HistoryRecord) (hf : ∀ h, (f h).id = h.id) :
    (updateHistory st i f).history.map (fun h => h.id) =
      st.history.map fun h => h.id := by
  simp only [updateHistory, List.map_map]
  refine List.map_congr_left fun h _ => ?_
  cases hc : h.id == i
  · simp [Function.comp, hc]
  · simp [Function.comp, hc, hf h]

@[simp] theorem updateHistoryStatus_map_id (st : SystemState) (i s : String)
    (e : Option String) :
    (updateHistoryStatus st i s e).history.map (fun h => h.id) =
      st.history.map fun h => h.id :=
  updateHistory_map_id st i _ fun h => rfl

theorem stageStop_inv (env : PipelineEnv) (historyId : String)
    (st : SystemState) (session : UpdateSession) :
    (∀ st' s', stageStop env historyId st session = .ok (st', s') →
      s'.sessionId = session.sessionId ∧ s'.serverId = session.serverId ∧
      histIds st' = histIds st) ∧
    (∀ m stF tmp sF, stageStop env historyId st session = .error (m, stF, tmp, sF) →
      sF.sessionId = session.sessionId ∧ sF.serverId = session.serverId ∧
      histIds stF = histIds st) := by
  unfold stageStop
  cases hwrb : session.wasRunning <;> simp only [hwrb]
  · refine ⟨fun st' s' heq => ?_, fun m stF tmp sF heq => Except.noConfusion heq⟩
    injection heq with h1
    injection h1 with e1 e2
    rw [← e1, ← e2]
    exact ⟨rfl, rfl, rfl⟩
  · rcases hsr : env.stopResult with m0 | u0 <;> simp only [hsr]
    · refine ⟨fun st' s' heq => Except.noConfusion heq, fun m stF tmp sF heq => ?_⟩
      injection heq with h1
      injection h1 with e1 h2
      injection h2 with e2 h3
      injection h3 with e3 e4
      rw [← e2, ← e4]
      exact ⟨by simp, by simp, by simp⟩
    · refine ⟨fun st' s' heq => ?_, fun m stF tmp sF heq => Except.noConfusion heq⟩
      injection heq with h1
      injection h1 with e1 e2
      rw [← e1, ← e2]
      exact ⟨by simp, by simp, by simp⟩

theorem stageBackup_inv (env : PipelineEnv) (historyId : String)
    (st : SystemState) (session : UpdateSession) :
    (∀ st' s', stageBackup env historyId st session = .ok (st', s') →
      s'.sessionId = session.sessionId ∧ s'.serverId = session.serverId ∧
      histIds st' = histIds st) ∧
    (∀ m stF tmp sF, stageBackup env historyId st session = .error (m, stF, tmp, sF) →
      sF.sessionId = session.sessionId ∧ sF.serverId = session.serverId ∧
      histIds stF = histIds st) := by
  unfold stageBackup
  rcases hbk : env.backupResult with m0 | bid <;> simp only [hbk]
  · refine ⟨fun st' s' heq => Except.noConfusion heq, fun m stF tmp sF heq => ?_⟩
    injection heq with h1
    injection h1 with e1 h2
    injection h2 with e2 h3
    injection h3 with e3 e4
    rw [← e2, ← e4]
    exact ⟨by simp, by simp, by simp⟩
  · refine ⟨fun st' s' heq => ?_, fun m stF tmp sF heq => Except.noConfusion heq⟩
    injection heq with h1
    injection h1 with e1 e2
    rw [← e1, ← e2]
    exact ⟨by simp, by simp, by simp⟩

theorem stagePreserve_inv (env : PipelineEnv) (server : Server)
    (historyId : String) (st : SystemState) (session : UpdateSession) :
    histIds (stagePreserve env server historyId st session).1 = histIds st ∧
    (stagePreserve env server historyId st session).2.1.sessionId =
      session.sessionId ∧
    (stagePreserve env server historyId st session).2.1.serverId =
      session.serverId := by
  refine ⟨?_, ?_, ?_⟩ <;> simp [stagePreserve, histIds]

theorem stageWipe_inv (env : PipelineEnv) (server : Server) (tempPath : Path)
    (session : UpdateSession) (st : SystemState) :
    (∀ st', stageWipe env server tempPath session st = .ok st' →
      histIds st' = histIds st) ∧
    (∀ m stF tmp sF, stageWipe env server tempPath session st = .error (m, stF, tmp, sF) →
      stF = st ∧ sF = session) := by
  unfold stageWipe
  cases hpe : pathExistsFS st.fs (server.serverPath ++ ["Server"]) <;> simp only [hpe]
  · refine ⟨fun st' heq => ?_, fun m stF tmp sF heq => Except.noConfusion heq⟩
    injection heq with e1
    rw [← e1]
  · rcases hwp : env.wipeResult with m0 | u0 <;> simp only [hwp]
    · refine ⟨fun st' heq => Except.noConfusion heq, fun m stF tmp sF heq => ?_⟩
      injection heq with h1
      injection h1 with e1 h2
      injection h2 with e2 h3
      injection h3 with e3 e4
      exact ⟨e2.symm, e4.symm⟩
    · refine ⟨fun st' heq => ?_, fun m stF tmp sF heq => Except.noConfusion heq⟩
      injection heq with e1
      rw [← e1]
      simp [histIds]

theorem stageDownload_inv (env : PipelineEnv) (tempPath : Path)
    (st : SystemState) (session : UpdateSession) :
    (∀ st' s', stageDownload env tempPath st session = .ok (st', s') →
      s'.sessionId = session.sessionId ∧ s'.serverId = session.serverId ∧
      histIds st' = histIds st) ∧
    (∀ m stF tmp sF, stageDownload env tempPath st session = .error (m, stF, tmp, sF) →
      sF.sessionId = session.sessionId ∧ sF.serverId = session.serverId ∧
      histIds stF = histIds st) := by
  unfold stageDownload
  rcases hsd : env.startDownloadResult with m0 | dsid <;> simp only [hsd]
  · refine ⟨fun st' s' heq => Except.noConfusion heq, fun m stF tmp sF heq => ?_⟩
    injection heq with h1
    injection h1 with e1 h2
    injection h2 with e2 h3
    injection h3 with e3 e4
    rw [← e2, ← e4]
    exact ⟨rfl, rfl, by simp⟩
  · rcases hwt : env.waitResult with mw | uw <;> simp only [hwt]
    · refine ⟨fun st' s' heq => Except.noConfusion heq, fun m stF tmp sF heq => ?_⟩
      injection heq with h1
      injection h1 with e1 h2
      injection h2 with e2 h3
      injection h3 with e3 e4
      rw [← e2, ← e4]
      exact ⟨by simp, by simp, by simp⟩
    · refine ⟨fun st' s' heq => ?_, fun m stF tmp sF heq => Except.noConfusion heq⟩
      injection heq with h1
      injection h1 with e1 e2
      rw [← e1, ← e2]
      exact ⟨by simp, by simp, by simp⟩

theorem stageInstall_inv (env : PipelineEnv) (server : Server)
    (historyId : String) (tempPath : Path) (st : SystemState)
    (session : UpdateSession) :
    (∀ st' s', stageInstall env server historyId tempPath st session = .ok (st', s') →
      s'.sessionId = session.sessionId ∧ s'.serverId = session.serverId ∧
      histIds st' = histIds st) ∧
    (∀ m stF tmp sF,
      stageInstall env server historyId tempPath st session = .error (m, stF, tmp, sF) →
      sF.sessionId = session.sessionId ∧ sF.serverId = session.serverId ∧
      histIds stF = histIds st) := by
  unfold stageInstall
  cases hjar : pathExistsFS (env.downloadFiles ++ st.fs)
      (server.serverPath ++ ["Server"] ++ ["HytaleServer.jar"]) <;>
    simp only [updateHistoryStatus_fs, updateSessionStatus_fst_fs, hjar]
  · refine ⟨fun st' s' heq => Except.noConfusion heq, fun m stF tmp sF heq => ?_⟩
    injection heq with h1
    injection h1 with e1 h2
    injection h2 with e2 h3
    injection h3 with e3 e4
    rw [← e2, ← e4]
    exact ⟨by simp, by simp, by simp⟩
  · refine ⟨fun st' s' heq => ?_, fun m stF tmp sF heq => Except.noConfusion heq⟩
    injection heq with h1
    injection h1 with e1 e2
    rw [← e1, ← e2]
    exact ⟨by simp, by simp, by simp⟩

theorem stageStart_inv (env : PipelineEnv) (historyId : String)
    (st : SystemState) (session : UpdateSession) :
    (∀ st' s', stageStart env historyId st session = .ok (st', s') →
      s'.sessionId = session.sessionId ∧ s'.serverId = session.serverId ∧
      histIds st' = histIds st) ∧
    (∀ m stF tmp sF, stageStart env historyId st session = .error (m, stF, tmp, sF) →
      sF.sessionId = session.sessionId ∧ sF.serverId = session.serverId ∧
      histIds stF = histIds st) := by
  unfold stageStart
  cases hwrb : session.wasRunning <;> simp only [hwrb]
  · refine ⟨fun st' s' heq => ?_, fun m stF tmp sF heq => Except.noConfusion heq⟩
    injection heq with h1
    injection h1 with e1 e2
    rw [← e1, ← e2]
    exact ⟨rfl, rfl, rfl⟩
  · rcases hsr : env.startResult with m0 | u0 <;> simp only [hsr]
    · refine ⟨fun st' s' heq => Except.noConfusion heq, fun m stF tmp sF heq => ?_⟩
      injection heq with h1
      injection h1 with e1 h2
      injection h2 with e2 h3
      injection h3 with e3 e4
      rw [← e2, ← e4]
      exact ⟨by simp, by simp, by simp⟩
    · refine ⟨fun st' s' heq => ?_, fun m stF tmp sF heq => Except.noConfusion heq⟩
      injection heq with h1
      injection h1 with e1 e2
      rw [← e1, ← e2]
      exact ⟨by simp, by simp, by simp⟩

/-- Stage traversal: any failure payload of `pipelineBody` carries the
session of the run (same ids) and a state whose history-record id list is
unchanged. -/
theorem pipelineBody_err_inv (env : PipelineEnv) (server : Server)
    (session : UpdateSession) (historyId : String) (st : SystemState) :
    ∀ m stF tmp sF,
      pipelineBody env server session historyId st = .error (m, stF, tmp, sF) →
      sF.sessionId = session.sessionId ∧ sF.serverId = session.serverId ∧
      histIds stF = histIds st := by
  intro m stF tmp sF heq
  unfold pipelineBody at heq
  cases h1 : stageStop env historyId st session with
  | error e =>
    obtain ⟨m1, stF1, tmp1, sF1⟩ := e
    rw [h1] at heq
    obtain ⟨ha, hb, hcid⟩ := (stageStop_inv env historyId st session).2 m1 stF1 tmp1 sF1 h1
    injection heq with h2
    injection h2 with e1 h3
    injection h3 with e2 h4
    injection h4 with e3 e4
    rw [← e2, ← e4]
    exact ⟨ha, hb, hcid⟩
  | ok v =>
    obtain ⟨st1, s1⟩ := v
    rw [h1] at heq
    dsimp only at heq
    obtain ⟨hsid1, hsrv1, hh1⟩ := (stageStop_inv env historyId st session).1 st1 s1 h1
    cases h2 : stageBackup env historyId st1 s1 with
    | error e =>
      obtain ⟨m2, stF2, tmp2, sF2⟩ := e
      rw [h2] at heq
      obtain ⟨ha, hb, hcid⟩ := (stageBackup_inv env historyId st1 s1).2 m2 stF2 tmp2 sF2 h2
      injection heq with h3
      injection h3 with e1 h4
      injection h4 with e2 h5
      injection h5 with e3 e4
      rw [← e2, ← e4]
      exact ⟨ha.trans hsid1, hb.trans hsrv1, hcid.trans hh1⟩
    | ok v2 =>
      obtain ⟨st2, s2⟩ := v2
      rw [h2] at heq
      dsimp only at heq
      obtain ⟨hsid2, hsrv2, hh2⟩ := (stageBackup_inv env historyId st1 s1).1 st2 s2 h2
      obtain ⟨hh3, hsid3, hsrv3⟩ := stagePreserve_inv env server historyId st2 s2
      cases h4 : stageWipe env server (stagePreserve env server historyId st2 s2).2.2
          (stagePreserve env server historyId st2 s2).2.1
          (stagePreserve env server historyId st2 s2).1 with
      | error e =>
        obtain ⟨m4, stF4, tmp4, sF4⟩ := e
        rw [h4] at heq
        obtain ⟨hfa, hfb⟩ := (stageWipe_inv env server _ _ _).2 m4 stF4 tmp4 sF4 h4
        injection heq with h5
        injection h5 with e1 h6
        injection h6 with e2 h7
        injection h7 with e3 e4
        rw [← e2, ← e4, hfa, hfb]
        refine ⟨hsid3.trans (hsid2.trans hsid1), hsrv3.trans (hsrv2.trans hsrv1), ?_⟩
        exact hh3.trans (hh2.trans hh1)
      | ok st4 =>
        rw [h4] at heq
        dsimp only at heq
        have hh4 := (stageWipe_inv env server _ _ _).1 st4 h4
        cases h5 : stageDownload env (stagePreserve env server historyId st2 s2).2.2 st4
            (stagePreserve env server historyId st2 s2).2.1 with
        | error e =>
          obtain ⟨m5, stF5, tmp5, sF5⟩ := e
          rw [h5] at heq
          obtain ⟨ha, hb, hcid⟩ := (stageDownload_inv env _ st4 _).2 m5 stF5 tmp5 sF5 h5
          injection heq with h6
          injection h6 with e1 h7
          injection h7 with e2 h8
          injection h8 with e3 e4
          rw [← e2, ← e4]
          refine ⟨ha.trans (hsid3.trans (hsid2.trans hsid1)),
            hb.trans (hsrv3.trans (hsrv2.trans hsrv1)), ?_⟩
          exact hcid.trans (hh4.trans (hh3.trans (hh2.trans hh1)))
        | ok v5 =>
          obtain ⟨st5, s5⟩ := v5
          rw [h5] at heq
          dsimp only at heq
          obtain ⟨hsid5, hsrv5, hh5⟩ := (stageDownload_inv env _ st4 _).1 st5 s5 h5
          cases h6 : stageInstall env server historyId
              (stagePreserve env server historyId st2 s2).2.2 st5 s5 with
          | error e =>
            obtain ⟨m6, stF6, tmp6, sF6⟩ := e
            rw [h6] at heq
            obtain ⟨ha, hb, hcid⟩ := (stageInstall_inv env server historyId _ st5 s5).2
              m6 stF6 tmp6 sF6 h6
            injection heq with h7
            injection h7 with e1 h8
            injection h8 with e2 h9
            injection h9 with e3 e4
            rw [← e2, ← e4]
            refine ⟨ha.trans (hsid5.trans (hsid3.trans (hsid2.trans hsid1))),
              hb.trans (hsrv5.trans (hsrv3.trans (hsrv2.trans hsrv1))), ?_⟩
            exact hcid.trans (hh5.trans (hh4.trans (hh3.trans (hh2.trans hh1))))
          | ok v6 =>
            obtain ⟨st6, s6⟩ := v6
            rw [h6] at heq
            dsimp only at heq
            obtain ⟨hsid6, hsrv6, hh6⟩ := (stageInstall_inv env server historyId _ st5 s5).1
              st6 s6 h6
            cases h7 : stageStart env historyId st6 s6 with
            | error e =>
              obtain ⟨m7, stF7, tmp7, sF7⟩ := e
              rw [h7] at heq
              obtain ⟨ha, hb, hcid⟩ := (stageStart_inv env historyId st6 s6).2
                m7 stF7 tmp7 sF7 h7
              injection heq with h8
              injection h8 with e1 h9
              injection h9 with e2 h10
              injection h10 with e3 e4
              rw [← e2, ← e4]
              refine ⟨ha.trans (hsid6.trans (hsid5.trans (hsid3.trans (hsid2.trans hsid1)))),
                hb.trans (hsrv6.trans (hsrv5.trans (hsrv3.trans (hsrv2.trans hsrv1)))), ?_⟩
              exact hcid.trans (hh6.trans (hh5.trans (hh4.trans (hh3.trans (hh2.trans hh1)))))
            | ok v7 =>
              obtain ⟨st7, s7⟩ := v7
              rw [h7] at heq
              dsimp only at heq
              exact Except.noConfusion heq

/-- Claim C1 (amended): for every error thrown by any stage inside the
pipeline's `try` block, the single failure handler runs and afterwards the
session is `failed` with the error message, every history record of the
run's history id is `failed` with the error message (and the record
survives if it existed at the throw), the server's `updateInProgress` flag
is false, an `update:failed` event carrying the original message is
emitted (a cleanup failure cannot mask it: the recorded message is the
thrown one for every value of `cleanupOk`), and when the best-effort
cleanup succeeds no temp-preserve directory remains.  The initial
server-record lookup happens before the `try`, so its failure does not
reach the handler (see the counterexample). -/
theorem pipeline_failure_handler_spec (env : PipelineEnv)
    (session : UpdateSession) (historyId : String) (st : SystemState)
    (server : Server) (m : String) (stF : SystemState) (tmp : Option Path)
    (sF : UpdateSession)
    (hsrv : findServer st session.serverId = some server)
    (hbody : pipelineBody env server session historyId st = .error (m, stF, tmp, sF)) :
    (∃ s', lookupAssoc (executeUpdatePipeline env session historyId st).sessions
        session.sessionId = some s' ∧
      s'.status = UpdateStatus.failed ∧ s'.error = some m) ∧
    (∀ h ∈ (executeUpdatePipeline env session historyId st).history,
      h.id = historyId → h.status = "failed" ∧ h.error = some m) ∧
    ((∃ h ∈ st.history, h.id = historyId) →
      ∃ h ∈ (executeUpdatePipeline env session historyId st).history,
        h.id = historyId ∧ h.status = "failed" ∧ h.error = some m) ∧
    (∀ s ∈ (executeUpdatePipeline env session historyId st).servers,
      s.id = session.serverId → s.updateInProgress = false) ∧
    (executeUpdatePipeline env session historyId st).events =
      stF.events ++ [Event.failed session.sessionId m] ∧
    (∀ t, tmp = some t → env.cleanupOk = true →
      pathExistsFS (executeUpdatePipeline env session historyId st).fs t = false) := by
  have hred := executeUpdatePipeline_err env session historyId st server m stF tmp sF
    hsrv hbody
  obtain ⟨hsid, hsrvid, hhist⟩ :=
    pipelineBody_err_inv env server session historyId st m stF tmp sF hbody
  rw [hred]
  refine ⟨?_, ?_, ?_, ?_, ?_, ?_⟩
  · refine ⟨{ sF with status := UpdateStatus.failed, error := some m }, ?_, rfl, rfl⟩
    rw [failureHandler_sessions, hsid]
    exact lookupAssoc_setAssoc_self _ _ _
  · intro h hm hid
    rw [failureHandler_history] at hm
    exact map_ite_prop (fun h => h.id) _ stF.history historyId
      (fun h => h.status = "failed" ∧ h.error = some m) (fun x => ⟨rfl, rfl⟩) h hm hid
  · intro hex
    rw [failureHandler_history]
    have hexF : ∃ h ∈ stF.history, h.id = historyId := by
      obtain ⟨h0, hh0, hid0⟩ := hex
      have hmem : historyId ∈ histIds st := by
        rw [histIds_def]
        exact List.mem_map.mpr ⟨h0, hh0, hid0⟩
      rw [← hhist, histIds_def] at hmem
      obtain ⟨h1, hh1, hid1⟩ := List.mem_map.mp hmem
      exact ⟨h1, hh1, hid1⟩
    obtain ⟨y, hy, hky, hstat, herr⟩ := map_ite_exists (fun h => h.id)
      (fun h => { h with status := "failed", error := some m }) stF.history
      historyId (fun h => h.status = "failed" ∧ h.error = some m)
      (fun x => ⟨rfl, rfl⟩) (fun x => rfl) hexF
    exact ⟨y, hy, hky, hstat, herr⟩
  · intro srv hm hid
    rw [failureHandler_servers, hsrvid] at hm
    exact map_ite_prop (fun srv => srv.id) _ stF.servers session.serverId
      (fun srv => srv.updateInProgress = false) (fun x => rfl) srv hm hid
  · rw [failureHandler_events, hsid]
  · intro t htmp hok
    subst htmp
    rw [failureHandler_fs_cleanup env sF historyId m t stF hok]
    exact pathExistsFS_removeTree_self _ _

/-! ### Concrete sample data: counterexamples and witnesses -/

def wServer : Server :=
  { id := "s1"
    name := "Alpha"
    version := "1.0"
    status := "stopped"
    serverPath := ["root"]
    updateInProgress := false
    availableVersion := none
    preUpdateBackupId := none }

def wSession : UpdateSession :=
  { sessionId := "sess-1"
    serverId := "s1"
    fromVersion := "1.0"
    toVersion := "2.0"
    status := UpdateStatus.pending
    progress := 0
    message := none
    error := none
    backupId := none
    startedAt := 7
    wasRunning := false
    downloadSessionId := none
    tempPreservePath := none }

def wFS : FS :=
  [(["root", "Server", "config.json"], "cfg"),
   (["root", "Server", "mods", "m.jar"], "mymod")]

def wSt : SystemState :=
  { servers := [wServer]
    sessions := [("sess-1", wSession)]
    history := []
    fs := wFS
    events := []
    calls := [] }

def wDown : FS := [(["root", "Server", "HytaleServer.jar"], "jarv2")]

def wEnv : PipelineEnv :=
  { stopResult := .ok ()
    backupResult := .ok "b1"
    wipeResult := .ok ()
    startDownloadResult := .ok "d1"
    downloadTicks := [0, 50, 100]
    waitResult := .ok ()
    downloadFiles := wDown
    startResult := .ok ()
    configScanOk := true
    cleanupOk := true
    now := 7 }

def wEnvFail : PipelineEnv := { wEnv with backupResult := .error "boom" }

def wStNoServer : SystemState :=
  { servers := []
    sessions := [("sess-1", wSession)]
    history := []
    fs := []
    events := []
    calls := [] }

def wSessRB : UpdateSession := { wSession with status := UpdateStatus.rolled_back }

def wStRB : SystemState :=
  { servers := [wServer]
    sessions := [("sess-1", wSessRB)]
    history := []
    fs := []
    events := []
    calls := [] }

def wSessTmp : UpdateSession :=
  { wSession with tempPreservePath := some ["root", ".update-preserve-7"] }

def wSessTmpFailed : UpdateSession :=
  { wSessTmp with
    status := UpdateStatus.failed
    error := some "Update cancelled by user" }

def wStTmp : SystemState :=
  { servers := [wServer]
    sessions := [("sess-1", wSessTmp)]
    history := []
    fs := [(["root", ".update-preserve-7", "configs", "config.json"], "cfg")]
    events := []
    calls := [] }

def wServerBak : Server := { wServer with preUpdateBackupId := some "b1" }

def wSessRBFailed : UpdateSession :=
  { wSessRB with
    status := UpdateStatus.failed
    error := some "Update cancelled by user" }

def wStBak : SystemState :=
  { servers := [wServerBak]
    sessions := []
    history := []
    fs := []
    events := []
    calls := [] }

/-- The state at the throw of the backup stage on `wSt` under `wEnvFail`. -/
def wThrowSt : SystemState :=
  addCall (updateHistoryStatus
      (updateSessionStatus wSt wSession UpdateStatus.backing_up 15
        "Creating backup...").1 "h1" "backing_up" none)
    (ExtCall.createBackup
      (updateSessionStatus wSt wSession UpdateStatus.backing_up 15
        "Creating backup...").2.serverId)

/-- Counterexample to the original C1, two parts.  First: when the initial
server-record lookup fails, the pipeline task returns without running the
failure handler — the state is untouched, the session stays `pending` and
no `update:failed` event is emitted.  Second: when the best-effort cleanup
remove fails, the temp-preserve directory of the run does remain on disk
(the handler still records the original error). -/
theorem pipeline_lookup_failure_counterexample :
    (executeUpdatePipeline wEnvFail wSession "h1" wStNoServer = wStNoServer ∧
     lookupAssoc (executeUpdatePipeline wEnvFail wSession "h1" wStNoServer).sessions
       "sess-1" = some wSession ∧
     wSession.status = UpdateStatus.pending ∧
     (executeUpdatePipeline wEnvFail wSession "h1" wStNoServer).events = []) ∧
    (pathExistsFS (executeUpdatePipeline
        { wEnv with startDownloadResult := .error "dlboom", cleanupOk := false }
        wSession "h1" wSt).fs
      (["root", tempPreserveName 7]) = true ∧
     Event.failed "sess-1" "dlboom" ∈ (executeUpdatePipeline
        { wEnv with startDownloadResult := .error "dlboom", cleanupOk := false }
        wSession "h1" wSt).events) := by
  refine ⟨⟨?_, ?_, rfl, ?_⟩, ?_, ?_⟩
  · rfl
  · rfl
  · rfl
  · decide
  · decide

/-- Counterexample to the original C4, two parts.  First: a session in the
terminal state `rolled_back` is not rejected — the guard checks only
`completed` and `failed`, so the cancel path runs and mutates the state.
Second: when the best-effort remove of the temp preserve directory fails,
the cancel still completes with the directory left on disk. -/
theorem cancelUpdate_rolled_back_counterexample :
    (wSessRB.status = UpdateStatus.rolled_back ∧
     cancelUpdate true "sess-1" wStRB = .ok (emit (updateServer
       { wStRB with sessions := setAssoc wStRB.sessions "sess-1" wSessRBFailed }
       "s1" fun s => { s with updateInProgress := false })
       (Event.cancelled "sess-1" "s1"))) ∧
    (pathExistsFS wStTmp.fs ["root", ".update-preserve-7"] = true ∧
     cancelUpdate false "sess-1" wStTmp = .ok (emit (updateServer
       { wStTmp with sessions := setAssoc wStTmp.sessions "sess-1" wSessTmpFailed }
       "s1" fun s => { s with updateInProgress := false })
       (Event.cancelled "sess-1" "s1"))) := by
  refine ⟨⟨rfl, rfl⟩, ?_, ?_⟩
  · decide
  · rfl

/-- Counterexample to the original C5: with a `preUpdateBackupId` but no
matching history record, `rollback` succeeds yet neither restores the
version nor clears `preUpdateBackupId`. -/
theorem rollback_no_history_counterexample :
    wServerBak.preUpdateBackupId = some "b1" ∧
    rollback "s1" wStBak = .ok (emit (addCall wStBak
      (ExtCall.restoreBackup "b1")) (Event.rollbackCompleted "s1")) ∧
    findServer (emit (addCall wStBak (ExtCall.restoreBackup "b1"))
      (Event.rollbackCompleted "s1")) "s1" = some wServerBak := by
  exact ⟨rfl, rfl, rfl⟩

/-- Counterexample to the original C2: the config scan sits inside a
`try`/`catch` that degrades a scan failure to preserving no config files.
Such a run still reaches `completed`, and the config file that existed
before the update is wiped and never restored. -/
theorem config_scan_failure_counterexample :
    lookupFS wSt.fs ["root", "Server", "config.json"] = some "cfg" ∧
    Event.completed "sess-1" ∈ (executeUpdatePipeline
      { wEnv with configScanOk := false } wSession "h1" wSt).events ∧
    lookupFS (executeUpdatePipeline
      { wEnv with configScanOk := false } wSession "h1" wSt).fs
      ["root", "Server", "config.json"] = none := by
  refine ⟨rfl, ?_, ?_⟩ <;> decide

theorem pipeline_failure_handler_spec_witness :
    (executeUpdatePipeline wEnvFail wSession "h1" wSt).events =
      wThrowSt.events ++ [Event.failed "sess-1" "boom"] :=
  (pipeline_failure_handler_spec wEnvFail wSession "h1" wSt wServer "boom"
    wThrowSt none
    ((updateSessionStatus wSt wSession UpdateStatus.backing_up 15
      "Creating backup...").2) rfl rfl).2.2.2.2.1

theorem update_preserves_user_data_witness :
    lookupFS (executeUpdatePipeline wEnv wSession "h1" wSt).fs
      ["root", "Server", "mods", "m.jar"] = some "mymod" :=
  (update_preserves_user_data wEnv wSession "h1" wSt wServer "b1" "d1"
    rfl rfl rfl rfl rfl rfl rfl (by decide) rfl (by decide)).2.2.1
    "mods" (Or.inl rfl) ["m.jar"] "mymod" rfl

theorem startUpdate_preconditions_witness :
    findServer wStNoServer "s1" = none ∧
    startUpdate (.ok none) 7 "s1" none wStNoServer =
      .error ("Server " ++ "s1" ++ " not found", wStNoServer) :=
  ⟨rfl, (startUpdate_preconditions (.ok none) 7 "s1" none wStNoServer).1 rfl⟩

theorem cancelUpdate_spec_witness :
    lookupAssoc wStBak.sessions "nope" = none ∧
    cancelUpdate true "nope" wStBak = .error ("Update session not found", wStBak) :=
  ⟨rfl, (cancelUpdate_spec true "nope" wStBak).1 rfl⟩

theorem rollback_spec_witness :
    findServer wSt "s1" = some wServer ∧
    rollback "s1" wSt = .error ("No pre-update backup available for rollback", wSt) :=
  ⟨rfl, (rollback_spec "s1" wSt).1 wServer rfl rfl⟩

theorem removeWithRetry_spec_witness :
    (1 : Nat) ≤ 5 ∧ (removeWithRetry (fun _ => none) 5 1000).attempts ≤ 5 :=
  ⟨by decide, ((removeWithRetry_spec (fun _ => none) 5 1000 (by decide)).1).2⟩

theorem updateProgress_monotone_witness :
    List.Chain' (· ≤ ·)
      (progressValues (executeUpdatePipeline wEnv wSession "h1" wSt).events) :=
  (updateProgress_monotone wEnv wSession "h1" wSt wServer "b1" "d1"
    rfl rfl rfl rfl rfl rfl rfl (by decide) rfl
    (by
      have hlit : wEnv.downloadTicks = [0, 50, 100] := rfl
      rw [hlit]
      refine List.chain'_cons.mpr ⟨by decide, ?_⟩
      refine List.chain'_cons.mpr ⟨by decide, ?_⟩
      exact List.chain'_singleton _)
    (by decide)).1

theorem waitForDownload_terminates_witness :
    waitForDownload (fun _ => false)
      (fun _ => some { progress := 0, status := DlStatus.downloading, error := none }) =
      .error "Download timed out" :=
  (waitForDownload_terminates (fun _ => false)
    (fun _ => some { progress := 0, status := DlStatus.downloading, error := none })).1
    (fun t ht => rfl)

theorem pipeline_skips_stop_start_witness :
    wSession.wasRunning = false ∧
    ((executeUpdatePipeline wEnv wSession "h1" wSt).calls.all
      fun c => !isStopStartCall c) = true := by
  constructor
  · rfl
  · obtain ⟨hcAll, -⟩ := pipeline_skips_stop_start wEnv wSession "h1" wSt rfl
      (by decide) (by intro c hc; simp [wSt] at hc) (by intro e he; simp [wSt] at he)
    refine List.all_eq_true.mpr fun c hcm => ?_
    rw [hcAll c hcm]
    rfl

theorem startUpdate_explicitTarget_no_provider_query_witness :
    findServer wSt "s1" = some wServer ∧
    startUpdate (.error "offline") 7 "s1" (some "2.0") wSt =
      startUpdate (.ok none) 7 "s1" (some "2.0") wSt :=
  ⟨rfl, (startUpdate_explicitTarget_no_provider_query (.error "offline") (.ok none)
    7 "s1" "2.0" wSt wServer rfl rfl (by decide) (by simp [wSt])).1⟩

end HytaleUpdate
